import Mathlib

/-
Verification of the sudoku solver library (src/lib.rs).

Shallow embedding conventions:
- The Rust `Sudoku` struct holds `grid : [u32; 81]`; we model it as a structure
  holding a `List Nat` (well-formed grids have length 81 and all values at most 9;
  theorems carry these as hypotheses, mirroring the invariants that the Rust type
  system and the validation panics enforce).
- Indexing `grid[x + y * 9]` is modeled with `List.getD _ _ 0`; in-range accesses
  (coordinates at most 8 on a length-81 list) never hit the default.
- Functions that panic in Rust (`validate_coordinates` / `validate_value` callers)
  are modeled by `Option`-returning checked variants; the unchecked core operations
  are used by the solver internals, which only ever call them in range.
- Loops over cells are modeled by folds over the corresponding index lists, or,
  when every iteration writes a distinct cell, as the equivalent pointwise map.
- The two sources of unbounded iteration, the deduction loop `advance_with_notes`
  and the backtracking loop in `AllSolutionsIterator::next`, are modeled with
  explicit fuel; `none` means the fuel ran out, not that the program failed.
-/

/-- Number of squares on a sudoku grid (NUM_SQUARES in the source). -/
def NUM_SQUARES : Nat := 81

/-- A sudoku grid: 81 values from 0 to 9, 0 meaning empty, indexed by x + y * 9. -/
structure Sudoku where
  grid : List Nat
deriving DecidableEq

/-- Model of the panicking coordinate validation: panics (none) iff x > 8 or y > 8. -/
def validate_coordinates (x y : Nat) : Option Unit :=
  if x > 8 || y > 8 then none else some ()

/-- Model of the panicking value validation: panics (none) iff value > 9. -/
def validate_value (value : Nat) : Option Unit :=
  if value > 9 then none else some ()

namespace Sudoku

/-- Unchecked read of the square at (x, y): grid[x + y * 9]. -/
def get_value (s : Sudoku) (x y : Nat) : Nat :=
  s.grid.getD (x + y * 9) 0

/-- Unchecked write of the square at (x, y): grid[x + y * 9] = value. -/
def set_value (s : Sudoku) (x y value : Nat) : Sudoku :=
  ⟨s.grid.set (x + y * 9) value⟩

/-- Checked read, as the public Rust get_value: validates coordinates first. -/
def get_value_checked (s : Sudoku) (x y : Nat) : Option Nat :=
  match validate_coordinates x y with
  | none => none
  | some _ => some (s.get_value x y)

/-- Checked write, as the public Rust set_value: validates coordinates and value. -/
def set_value_checked (s : Sudoku) (x y value : Nat) : Option Sudoku :=
  match validate_coordinates x y with
  | none => none
  | some _ =>
    match validate_value value with
    | none => none
    | some _ => some (s.set_value x y value)

/-- Construction from an 81-value array, validating every element (new_from_array). -/
def new_from_array (array : List Nat) : Option Sudoku :=
  if array.all (fun value => !(value > 9)) then some ⟨array⟩ else none

/-- The all-empty grid (new_empty). -/
def new_empty : Sudoku := ⟨List.replicate NUM_SQUARES 0⟩

/-- True if any square holds 0 (has_empty_squares). -/
def has_empty_squares (s : Sudoku) : Bool :=
  (List.range NUM_SQUARES).any (fun i => s.grid.getD i 0 == 0)

/-- Number of squares holding a given value; the source iterates the raw array
(num_occurrences_of validates the value first; see num_occurrences_of_checked). -/
def num_occurrences_of (s : Sudoku) (value : Nat) : Nat :=
  s.grid.count value

/-- Checked occurrence count, as the public Rust num_occurrences_of. -/
def num_occurrences_of_checked (s : Sudoku) (value : Nat) : Option Nat :=
  match validate_value value with
  | none => none
  | some _ => some (s.num_occurrences_of value)

/-- Number of empty squares (num_empty_squares, which calls num_occurrences_of 0;
the validation of 0 always succeeds). -/
def num_empty_squares (s : Sudoku) : Nat :=
  s.num_occurrences_of 0

end Sudoku

/-- Scan of one line of 9 values with a seen-bitmask, mirroring the inner loops of
fulfills_horizontal_condition and friends: skip zeros, return false on a repeated
value, otherwise record the value in the mask. -/
def line_check : Nat → List Nat → Bool
  | _, [] => true
  | bit_flags, value :: rest =>
    if value == 0 then line_check bit_flags rest
    else if (bit_flags >>> (value - 1)) &&& 1 == 1 then false
    else line_check (bit_flags ||| (1 <<< (value - 1))) rest

namespace Sudoku

/-- Values of row y in scan order (x ascending), as read by the horizontal check. -/
def row_values (s : Sudoku) (y : Nat) : List Nat :=
  (List.range 9).map (fun x => s.get_value x y)

/-- Values of column x in scan order (y ascending), as read by the vertical check. -/
def col_values (s : Sudoku) (x : Nat) : List Nat :=
  (List.range 9).map (fun y => s.get_value x y)

/-- Values of the 3x3 cell with cell coordinates (x_cell, y_cell), in the scan
order of fulfills_in_3x3_cell_condition (x offset outer, y offset inner). -/
def box_values (s : Sudoku) (x_cell y_cell : Nat) : List Nat :=
  (List.range 3).flatMap (fun x_off =>
    (List.range 3).map (fun y_off =>
      s.get_value (x_cell * 3 + x_off) (y_cell * 3 + y_off)))

/-- No duplicate nonzero value in any row (fulfills_horizontal_condition). -/
def fulfills_horizontal_condition (s : Sudoku) : Bool :=
  (List.range 9).all (fun y => line_check 0 (s.row_values y))

/-- No duplicate nonzero value in any column (fulfills_vertical_condition). -/
def fulfills_vertical_condition (s : Sudoku) : Bool :=
  (List.range 9).all (fun x => line_check 0 (s.col_values x))

/-- No duplicate nonzero value in any 3x3 cell (fulfills_in_3x3_cell_condition);
the source iterates x_cell in the outer loop. -/
def fulfills_in_3x3_cell_condition (s : Sudoku) : Bool :=
  (List.range 3).all (fun x_cell =>
    (List.range 3).all (fun y_cell => line_check 0 (s.box_values x_cell y_cell)))

/-- Validity: no duplicates in any row, column or 3x3 cell (is_valid). -/
def is_valid (s : Sudoku) : Bool :=
  s.fulfills_horizontal_condition &&
  s.fulfills_vertical_condition &&
  s.fulfills_in_3x3_cell_condition

/-- Solved: no empty squares and valid (is_solved). -/
def is_solved (s : Sudoku) : Bool :=
  !s.has_empty_squares && s.is_valid

/-- Well-formedness facts guaranteed by the Rust type ([u32; 81]) and the value
validation: exactly 81 squares, every value at most 9. -/
def WellFormed (s : Sudoku) : Prop :=
  s.grid.length = NUM_SQUARES ∧ ∀ v ∈ s.grid, v ≤ 9

instance (s : Sudoku) : Decidable s.WellFormed := by
  unfold WellFormed NUM_SQUARES
  infer_instance

end Sudoku

/-- Candidate set for one square: a bitmask of still-possible values (bit i set
iff value i+1 is possible) plus the cached count of set bits (SudokuNote). -/
structure SudokuNote where
  notes_flags : Nat
  num_values_possible : Nat
deriving DecidableEq

namespace SudokuNote

/-- The mask with all nine values possible (ALL_VALUES_POSSIBLE = 0b111_111_111). -/
def ALL_VALUES_POSSIBLE : Nat := 0b111111111

/-- Fresh note: all values possible, count 9 (new_with_all_values_possible). -/
def new_with_all_values_possible : SudokuNote :=
  ⟨ALL_VALUES_POSSIBLE, 9⟩

/-- Bit test for a value: (notes_flags >> (value - 1)) & 1 != 0 (is_value_possible). -/
def is_value_possible (note : SudokuNote) (value : Nat) : Bool :=
  (note.notes_flags >>> (value - 1)) &&& 1 != 0

/-- The still-possible values in ascending order. The Rust possible_values
iterator starts below 1, repeatedly advances to the next position whose bit is
set, and ends after position 9, so it yields exactly the possible values in
1..=9 ascending: we model the whole traversal as this list. -/
def possible_values (note : SudokuNote) : List Nat :=
  ((List.range 9).map (fun i => i + 1)).filter (fun v => note.is_value_possible v)

end SudokuNote

/-- Grid of 81 candidate sets aligned with the sudoku grid (NotesGrid). -/
structure NotesGrid where
  grid : List SudokuNote
deriving DecidableEq

namespace NotesGrid

/-- Fresh notes grid: every note allows all values (NotesGrid::new). -/
def new : NotesGrid :=
  ⟨List.replicate NUM_SQUARES SudokuNote.new_with_all_values_possible⟩

/-- Read the note of square (x, y); in-range reads on an 81-note grid never hit
the default (get_note). -/
def get_note (notes : NotesGrid) (x y : Nat) : SudokuNote :=
  notes.grid.getD (x + y * 9) ⟨0, 0⟩

/-- Reset every note to the all-possible state (NotesGrid::reset, which calls
reset_to_all_values_possible on each note). -/
def reset (notes : NotesGrid) : NotesGrid :=
  ⟨notes.grid.map (fun _ => SudokuNote.new_with_all_values_possible)⟩

end NotesGrid

/-- Exclusion mask of column x: start from all ones and toggle the bit of every
nonzero value in the column (the first inner loop of make_vertical_notes). -/
def column_mask (s : Sudoku) (x : Nat) : Nat :=
  (List.range 9).foldl
    (fun mask y =>
      let value := s.get_value x y
      if value == 0 then mask else mask ^^^ (1 <<< (value - 1)))
    SudokuNote.ALL_VALUES_POSSIBLE

/-- Exclusion mask of row y (the first inner loop of make_horizontal_notes). -/
def row_mask (s : Sudoku) (y : Nat) : Nat :=
  (List.range 9).foldl
    (fun mask x =>
      let value := s.get_value x y
      if value == 0 then mask else mask ^^^ (1 <<< (value - 1)))
    SudokuNote.ALL_VALUES_POSSIBLE

/-- Exclusion mask of the 3x3 cell (cell_x, cell_y), scanning square_y in the
outer and square_x in the inner loop as make_in_cell_notes does. -/
def box_mask (s : Sudoku) (cell_x cell_y : Nat) : Nat :=
  (List.range 3).foldl
    (fun mask square_y =>
      (List.range 3).foldl
        (fun mask square_x =>
          let value := s.get_value (cell_x * 3 + square_x) (cell_y * 3 + square_y)
          if value == 0 then mask else mask ^^^ (1 <<< (value - 1)))
        mask)
    SudokuNote.ALL_VALUES_POSSIBLE

/-- make_vertical_notes: for every column x the source computes column_mask s x
and ANDs it into the flags of all nine notes of that column. Every square is
written exactly once, so the double loop is the pointwise map over all 81
squares, each square receiving the mask of its own column (x = i % 9). -/
def make_vertical_notes (notes : NotesGrid) (s : Sudoku) : NotesGrid :=
  ⟨(List.range NUM_SQUARES).map (fun i =>
    let note := notes.grid.getD i ⟨0, 0⟩
    { note with notes_flags := note.notes_flags &&& column_mask s (i % 9) })⟩

/-- make_horizontal_notes: pointwise AND with the mask of the row (y = i / 9). -/
def make_horizontal_notes (notes : NotesGrid) (s : Sudoku) : NotesGrid :=
  ⟨(List.range NUM_SQUARES).map (fun i =>
    let note := notes.grid.getD i ⟨0, 0⟩
    { note with notes_flags := note.notes_flags &&& row_mask s (i / 9) })⟩

/-- make_in_cell_notes: pointwise AND with the mask of the containing 3x3 cell
(cell coordinates (i % 9) / 3 and (i / 9) / 3). -/
def make_in_cell_notes (notes : NotesGrid) (s : Sudoku) : NotesGrid :=
  ⟨(List.range NUM_SQUARES).map (fun i =>
    let note := notes.grid.getD i ⟨0, 0⟩
    { note with notes_flags := note.notes_flags &&& box_mask s ((i % 9) / 3) ((i / 9) / 3) })⟩

/-- Popcount of the low nine bits, as the count-fixup loop of make_all_notes
computes it: num = 0; for i in 0..9 num += (flags >> i) & 1. -/
def popcount9 (flags : Nat) : Nat :=
  (List.range 9).foldl (fun num i => num + ((flags >>> i) &&& 1)) 0

/-- make_all_notes: vertical, horizontal and in-cell passes, then recompute
every cached count from the flags. -/
def make_all_notes (notes : NotesGrid) (s : Sudoku) : NotesGrid :=
  let notes := make_vertical_notes notes s
  let notes := make_horizontal_notes notes s
  let notes := make_in_cell_notes notes s
  ⟨notes.grid.map (fun note =>
    { note with num_values_possible := popcount9 note.notes_flags })⟩

/-- Scan order of replace_notes_with_values: x in the outer loop, y inner. -/
def replace_scan_order : List (Nat × Nat) :=
  (List.range 9).flatMap (fun x => (List.range 9).map (fun y => (x, y)))

/-- One iteration of the replace_notes_with_values loop body at square (x, y):
if the note allows exactly one value and the square is empty, write that value
and bump the counter. The Rust "expect" on the first possible value cannot fire
when the cached count matches the flags (make_all_notes guarantees this); the
unreachable arm is modeled as a no-op. -/
def replace_step (notes : NotesGrid) : Sudoku × Nat → Nat × Nat → Sudoku × Nat :=
  fun acc xy =>
    if (notes.get_note xy.1 xy.2).num_values_possible == 1 && acc.1.get_value xy.1 xy.2 == 0 then
      match (notes.get_note xy.1 xy.2).possible_values.head? with
      | some certain_value => (acc.1.set_value xy.1 xy.2 certain_value, acc.2 + 1)
      | none => acc
    else acc

/-- replace_notes_with_values: fill every empty square whose note allows exactly
one value; return the updated grid and how many squares were newly written. -/
def replace_notes_with_values (s : Sudoku) (notes : NotesGrid) : Sudoku × Nat :=
  replace_scan_order.foldl (replace_step notes) (s, 0)

/-- advance_with_notes: repeat make_all_notes then replace_notes_with_values
until a pass writes nothing. The loop is modeled with fuel; none means the fuel
ran out (num_empty_squares s + 1 always suffices, see the termination theorem). -/
def advance_with_notes : Nat → Sudoku → NotesGrid → Option (Sudoku × NotesGrid)
  | 0, _, _ => none
  | fuel + 1, s, notes =>
    let notes := make_all_notes notes s
    let result := replace_notes_with_values s notes
    if result.2 == 0 then some (result.1, notes)
    else advance_with_notes fuel result.1 notes

/-- advance_with_notes with its always-sufficient fuel. -/
def advance_run (s : Sudoku) (notes : NotesGrid) : Sudoku × NotesGrid :=
  (advance_with_notes (s.num_empty_squares + 1) s notes).getD (s, notes)

/-- is_dead_end: some square is empty but its note allows no value at all
(x outer loop, y inner, early return modeled by any). -/
def is_dead_end (s : Sudoku) (notes : NotesGrid) : Bool :=
  (List.range 9).any (fun x =>
    (List.range 9).any (fun y =>
      (notes.get_note x y).num_values_possible == 0 && s.get_value x y == 0))

/-- One speculative change of the solver (ValueChange). -/
structure ValueChange where
  x : Nat
  y : Nat
  value : Nat
deriving DecidableEq

/-- The change stack of AllSolutionsIterator, with the most recent change at the
head (the Rust Vec pushes and pops at its back and replays front to back, so a
replay applies the reversed list). -/
abbrev ChangeStack := List ValueChange

/-- Rebuild a working grid from the original puzzle by replaying every change,
oldest first (the replay loops of next and revert_last_change). -/
def replay (orig : Sudoku) (stack : ChangeStack) : Sudoku :=
  stack.reverse.foldl (fun g c => g.set_value c.x c.y c.value) orig

/-- The branching scan of next: the first (y outer, x inner, value ascending)
triple whose value is possible, exceeds last_value, and sits on an empty square. -/
def find_branch (g : Sudoku) (notes : NotesGrid) (last_value : Nat) :
    Option (Nat × Nat × Nat) :=
  (List.range 9).findSome? (fun y =>
    (List.range 9).findSome? (fun x =>
      ((notes.get_note x y).possible_values.find?
        (fun possible_value => possible_value > last_value && g.get_value x y == 0)).map
        (fun possible_value => (x, y, possible_value))))

/-- The body of the labeled outer loop of AllSolutionsIterator::next, driven by
fuel. Arguments: the original puzzle, remaining fuel, working grid, notes,
last_value, change stack. Returns none when the fuel runs out, otherwise the
yielded item (some solution or none for exhausted) and the final stack. -/
def solver_loop (orig : Sudoku) :
    Nat → Sudoku → NotesGrid → Nat → ChangeStack →
    Option (Option Sudoku × ChangeStack)
  | 0, _, _, _, _ => none
  | fuel + 1, sudoku_grid, notes, last_value, stack =>
    let advanced := advance_run sudoku_grid notes
    let g := advanced.1
    let ns := advanced.2
    if !g.is_valid || is_dead_end g ns then
      match stack with
      | [] => some (none, [])
      | c :: rest => solver_loop orig fuel (replay orig rest) ns.reset c.value rest
    else if g.num_empty_squares == 0 then
      some (some g, stack)
    else
      match find_branch g ns last_value with
      | some (x, y, v) =>
        solver_loop orig fuel (g.set_value x y v) ns 0 (⟨x, y, v⟩ :: stack)
      | none =>
        match stack with
        | [] => some (none, [])
        | c :: rest => solver_loop orig fuel (replay orig rest) ns.reset c.value rest

/-- One call of AllSolutionsIterator::next on iterator state (orig, stack): pop
the top change (its value becomes last_value; 0 if the stack is empty), rebuild
the working grid from the remaining stack, start with fresh notes, and run the
outer loop. -/
def next_fuel (orig : Sudoku) (stack : ChangeStack) (fuel : Nat) :
    Option (Option Sudoku × ChangeStack) :=
  match stack with
  | c :: rest => solver_loop orig fuel (replay orig rest) NotesGrid.new c.value rest
  | [] => solver_loop orig fuel (replay orig []) NotesGrid.new 0 []

/-- find_solution: the first item of find_all_solutions. The outer option is the
fuel guard; the inner option is the Rust return value. -/
def find_solution_fuel (s : Sudoku) (fuel : Nat) : Option (Option Sudoku) :=
  (next_fuel s [] fuel).map (fun r => r.1)

/-- Drive the iterator: make up to the given number of next calls, each with the
given fuel, collecting every yielded solution until a call yields nothing (or
runs out of fuel). -/
def collect_solutions (orig : Sudoku) (fuel : Nat) : Nat → ChangeStack → List Sudoku
  | 0, _ => []
  | calls + 1, stack =>
    match next_fuel orig stack fuel with
    | some (some s, stack1) => s :: collect_solutions orig fuel calls stack1
    | _ => []

/-- Grid g preserves every nonzero square of grid p exactly. -/
def Sudoku.Extends (p g : Sudoku) : Prop :=
  ∀ x y, x ≤ 8 → y ≤ 8 → p.get_value x y ≠ 0 → g.get_value x y = p.get_value x y

/-- No nonzero value occurs more than once. -/
def nonzero_no_dup (vals : List Nat) : Prop :=
  ∀ v, v ≠ 0 → vals.count v ≤ 1

/-- Values read along a list of coordinates. -/
def line_of (s : Sudoku) (coords : List (Nat × Nat)) : List Nat :=
  coords.map (fun p => s.get_value p.1 p.2)

/-- Coordinates of row y in scan order. -/
def row_coords (y : Nat) : List (Nat × Nat) :=
  (List.range 9).map (fun x => (x, y))

/-- Coordinates of column x in scan order. -/
def col_coords (x : Nat) : List (Nat × Nat) :=
  (List.range 9).map (fun y => (x, y))

/-- Coordinates of the 3x3 cell (x_cell, y_cell) in scan order. -/
def box_coords (x_cell y_cell : Nat) : List (Nat × Nat) :=
  (List.range 3).flatMap (fun x_off =>
    (List.range 3).map (fun y_off => (x_cell * 3 + x_off, y_cell * 3 + y_off)))

/-- Every change on the stack has in-range coordinates, a value in 1..=9, and
targets a square that is empty in the original puzzle. -/
def stack_cells_ok (orig : Sudoku) (stack : ChangeStack) : Prop :=
  ∀ c ∈ stack, c.x ≤ 8 ∧ c.y ≤ 8 ∧ 1 ≤ c.value ∧ c.value ≤ 9 ∧
    orig.get_value c.x c.y = 0

/-- No two changes on the stack target the same square. -/
def stack_distinct (stack : ChangeStack) : Prop :=
  stack.Pairwise (fun a b => ¬(a.x = b.x ∧ a.y = b.y))

/-- The reachable-state invariant of the iterator between next calls. -/
def StackInv (orig : Sudoku) (stack : ChangeStack) : Prop :=
  stack_cells_ok orig stack ∧ stack_distinct stack

/-- The mask-building inner loops of make_vertical_notes, make_horizontal_notes
and make_in_cell_notes, as a fold over the list of values they scan. -/
def exclusion_fold (m : Nat) (vals : List Nat) : Nat :=
  vals.foldl
    (fun mask value => if value == 0 then mask else mask ^^^ (1 <<< (value - 1))) m

/-- Values of the 3x3 cell in the scan order of the mask loop of
make_in_cell_notes (square_y outer, square_x inner). -/
def box_mask_values (s : Sudoku) (cell_x cell_y : Nat) : List Nat :=
  (List.range 3).flatMap (fun square_y =>
    (List.range 3).map (fun square_x =>
      s.get_value (cell_x * 3 + square_x) (cell_y * 3 + square_y)))

/-- Solved grid used by the repo's own is_solved test. -/
def solved_grid : Sudoku :=
  ⟨[1, 9, 2, 7, 5, 3, 6, 8, 4,
    7, 6, 5, 8, 9, 4, 1, 3, 2,
    3, 8, 4, 1, 2, 6, 9, 5, 7,
    2, 5, 8, 4, 7, 1, 3, 6, 9,
    4, 1, 7, 6, 3, 9, 5, 2, 8,
    9, 3, 6, 5, 8, 2, 4, 7, 1,
    8, 4, 9, 2, 6, 5, 7, 1, 3,
    6, 7, 1, 3, 4, 8, 2, 9, 5,
    5, 2, 3, 9, 1, 7, 8, 4, 6]⟩

/-- The solved grid with its first square blanked: a puzzle one deduction away
from solved. -/
def one_blank_grid : Sudoku :=
  ⟨[0, 9, 2, 7, 5, 3, 6, 8, 4,
    7, 6, 5, 8, 9, 4, 1, 3, 2,
    3, 8, 4, 1, 2, 6, 9, 5, 7,
    2, 5, 8, 4, 7, 1, 3, 6, 9,
    4, 1, 7, 6, 3, 9, 5, 2, 8,
    9, 3, 6, 5, 8, 2, 4, 7, 1,
    8, 4, 9, 2, 6, 5, 7, 1, 3,
    6, 7, 1, 3, 4, 8, 2, 9, 5,
    5, 2, 3, 9, 1, 7, 8, 4, 6]⟩

/-- Grid with the value 1 duplicated at (0,0) and (0,1): invalid, sharing
column 0 and the top-left 3x3 cell. -/
def dup_grid : Sudoku :=
  ⟨1 :: List.replicate 8 0 ++ 1 :: List.replicate 71 0⟩

/-- Grid with the value 4 duplicated in row 0: an invalid puzzle. -/
def invalid_pair_grid : Sudoku :=
  ⟨4 :: 4 :: List.replicate 79 0⟩

/-! Basic facts about list indexing, the grid operations and counting. -/

theorem getD_set {α : Type _} (l : List α) (i j : Nat) (a d : α) :
    (l.set i a).getD j d = if i = j ∧ i < l.length then a else l.getD j d := by
  rw [List.getD_eq_getElem?_getD, List.getD_eq_getElem?_getD, List.getElem?_set]
  by_cases hij : i = j
  · subst hij
    by_cases hlen : i < l.length
    · simp [hlen]
    · simp [hlen, List.getElem?_eq_none (Nat.le_of_not_lt hlen)]
  · simp [hij]

theorem get_value_set_value (s : Sudoku) (x y x' y' v : Nat)
    (hx : x ≤ 8) (hy : y ≤ 8) (hx' : x' ≤ 8) (hy' : y' ≤ 8)
    (hlen : s.grid.length = NUM_SQUARES) :
    (s.set_value x y v).get_value x' y' =
      if x = x' ∧ y = y' then v else s.get_value x' y' := by
  unfold Sudoku.set_value Sudoku.get_value
  rw [getD_set]
  unfold NUM_SQUARES at hlen
  by_cases h : x = x' ∧ y = y'
  · rcases h with ⟨rfl, rfl⟩
    simp [hlen]
    omega
  · have : ¬(x + y * 9 = x' + y' * 9 ∧ x + y * 9 < s.grid.length) := by
      rw [hlen]
      intro ⟨heq, _⟩
      exact h (by omega)
    simp [this, h]

theorem length_set_value (s : Sudoku) (x y v : Nat) :
    (s.set_value x y v).grid.length = s.grid.length := by
  simp [Sudoku.set_value]

theorem values_le_set_value (s : Sudoku) (x y v : Nat) (hv : v ≤ 9)
    (hs : ∀ w ∈ s.grid, w ≤ 9) : ∀ w ∈ (s.set_value x y v).grid, w ≤ 9 := by
  intro w hw
  rcases List.mem_or_eq_of_mem_set hw with h | rfl
  · exact hs w h
  · exact hv

theorem num_empty_set_value (s : Sudoku) (x y v : Nat)
    (hx : x ≤ 8) (hy : y ≤ 8) (hv : v ≠ 0)
    (hlen : s.grid.length = NUM_SQUARES)
    (hempty : s.get_value x y = 0) :
    (s.set_value x y v).num_empty_squares + 1 = s.num_empty_squares := by
  unfold Sudoku.num_empty_squares Sudoku.num_occurrences_of Sudoku.set_value
  unfold NUM_SQUARES at hlen
  have hidx : x + y * 9 < s.grid.length := by omega
  rw [List.count_set (h := hidx)]
  have hget : s.grid[x + y * 9] = 0 := by
    have := List.getElem?_eq_getElem hidx
    unfold Sudoku.get_value at hempty
    rw [List.getD_eq_getElem?_getD, this] at hempty
    simpa using hempty
  have hmem : (0 : Nat) ∈ s.grid := by
    have := List.getElem_mem hidx
    rwa [hget] at this
  have hcount : 1 ≤ List.count 0 s.grid := List.count_pos_iff.mpr hmem
  simp [hget, hv]
  omega

theorem get_value_eq_getElem (s : Sudoku) (x y : Nat) (hx : x ≤ 8) (hy : y ≤ 8)
    (hlen : s.grid.length = NUM_SQUARES) (h : x + y * 9 < s.grid.length) :
    s.get_value x y = s.grid[x + y * 9] := by
  unfold Sudoku.get_value
  rw [List.getD_eq_getElem?_getD, List.getElem?_eq_getElem h]
  rfl

theorem num_empty_eq_zero_iff (s : Sudoku) (hlen : s.grid.length = NUM_SQUARES) :
    s.num_empty_squares = 0 ↔ ∀ x y, x ≤ 8 → y ≤ 8 → s.get_value x y ≠ 0 := by
  unfold Sudoku.num_empty_squares Sudoku.num_occurrences_of
  rw [List.count_eq_zero]
  unfold NUM_SQUARES at hlen
  constructor
  · intro hnone x y hx hy hzero
    apply hnone
    have hidx : x + y * 9 < s.grid.length := by omega
    have : s.get_value x y = s.grid[x + y * 9] :=
      get_value_eq_getElem s x y hx hy (by unfold NUM_SQUARES; omega) hidx
    rw [this] at hzero
    rw [← hzero]
    exact List.getElem_mem hidx
  · intro hall hmem
    rcases List.getElem_of_mem hmem with ⟨i, hi, hget⟩
    have hx : i % 9 ≤ 8 := by omega
    have hy : i / 9 ≤ 8 := by omega
    apply hall (i % 9) (i / 9) hx hy
    have hidx : i % 9 + i / 9 * 9 = i := by omega
    have hlt : i % 9 + i / 9 * 9 < s.grid.length := by omega
    have h2 := get_value_eq_getElem s (i % 9) (i / 9) hx hy (by unfold NUM_SQUARES; omega) hlt
    rw [h2]
    simp only [hidx]
    exact hget

theorem has_empty_squares_iff (s : Sudoku) (hlen : s.grid.length = NUM_SQUARES) :
    s.has_empty_squares = true ↔ s.num_empty_squares ≠ 0 := by
  unfold Sudoku.has_empty_squares Sudoku.num_empty_squares Sudoku.num_occurrences_of
  rw [List.any_eq_true]
  rw [Ne, List.count_eq_zero]
  unfold NUM_SQUARES at hlen
  constructor
  · intro ⟨i, hi, hzero⟩ hnone
    rw [List.mem_range] at hi
    have hi9 : i < 81 := by simpa [NUM_SQUARES] using hi
    apply hnone
    have : s.grid.getD i 0 = s.grid[i] := by
      rw [List.getD_eq_getElem?_getD, List.getElem?_eq_getElem (by omega)]
      rfl
    rw [this] at hzero
    simp at hzero
    rw [← hzero]
    exact List.getElem_mem (by omega)
  · intro hmem
    rw [not_not] at hmem
    rcases List.getElem_of_mem hmem with ⟨i, hi, hget⟩
    refine ⟨i, List.mem_range.mpr (by simp only [NUM_SQUARES]; omega), ?_⟩
    simp [List.getD_eq_getElem?_getD, List.getElem?_eq_getElem hi, hget]

/-! The monotone extension order on grids: the solver only ever turns empty
squares into nonzero values, so every nonzero square keeps its exact value. -/


theorem Sudoku.Extends.rfl (s : Sudoku) : s.Extends s := fun _ _ _ _ _ => Eq.refl _

theorem Sudoku.Extends.trans {a b c : Sudoku} (hab : a.Extends b) (hbc : b.Extends c) :
    a.Extends c := by
  intro x y hx hy hnz
  rw [hbc x y hx hy (by rw [hab x y hx hy hnz]; exact hnz), hab x y hx hy hnz]

theorem extends_set_value_of_empty {g : Sudoku} (x y v : Nat)
    (hx : x ≤ 8) (hy : y ≤ 8) (hlen : g.grid.length = NUM_SQUARES)
    (hempty : g.get_value x y = 0) : g.Extends (g.set_value x y v) := by
  intro x' y' hx' hy' hnz
  rw [get_value_set_value g x y x' y' v hx hy hx' hy' hlen]
  have : ¬(x = x' ∧ y = y') := by
    intro ⟨rfl, rfl⟩
    exact hnz hempty
  simp [this]

/-! Facts about candidate sets: possible_values, its head, and popcount9. -/

theorem mem_possible_values {note : SudokuNote} {v : Nat} :
    v ∈ note.possible_values ↔ 1 ≤ v ∧ v ≤ 9 ∧ note.is_value_possible v = true := by
  unfold SudokuNote.possible_values
  rw [List.mem_filter]
  simp only [List.mem_map, List.mem_range]
  constructor
  · intro ⟨⟨i, hi, hv⟩, hp⟩
    exact ⟨by omega, by omega, hp⟩
  · intro ⟨h1, h9, hp⟩
    exact ⟨⟨v - 1, by omega, by omega⟩, hp⟩

theorem head_possible_values {note : SudokuNote} {v : Nat}
    (h : note.possible_values.head? = some v) :
    1 ≤ v ∧ v ≤ 9 ∧ note.is_value_possible v = true := by
  have hm : v ∈ note.possible_values := by
    cases hl : note.possible_values with
    | nil => rw [hl] at h; exact absurd h (by simp)
    | cons a t =>
      rw [hl] at h
      simp at h
      rw [← h]
      exact List.mem_cons_self a t
  exact mem_possible_values.mp hm

theorem popcount9_expand (flags : Nat) :
    popcount9 flags =
      ((flags >>> 0) &&& 1) + ((flags >>> 1) &&& 1) + ((flags >>> 2) &&& 1) +
      ((flags >>> 3) &&& 1) + ((flags >>> 4) &&& 1) + ((flags >>> 5) &&& 1) +
      ((flags >>> 6) &&& 1) + ((flags >>> 7) &&& 1) + ((flags >>> 8) &&& 1) := by
  simp [popcount9, List.range_succ]

theorem shift_and_one (flags i : Nat) : (flags >>> i) &&& 1 = flags / 2 ^ i % 2 := by
  rw [Nat.shiftRight_eq_div_pow, Nat.and_one_is_mod]

/-- A note whose popcount is one has a possible value, so the head of
possible_values exists. -/
theorem head_of_popcount_one {note : SudokuNote}
    (h : popcount9 note.notes_flags = 1) :
    ∃ v, note.possible_values.head? = some v := by
  have hne : note.possible_values ≠ [] := by
    intro hnil
    have hnone : ∀ v, 1 ≤ v → v ≤ 9 → note.is_value_possible v = false := by
      intro v h1 h9
      by_contra hp
      have : v ∈ note.possible_values :=
        mem_possible_values.mpr ⟨h1, h9, by revert hp; cases note.is_value_possible v <;> simp⟩
      rw [hnil] at this
      exact absurd this (List.not_mem_nil v)
    have hzero : ∀ i, i ≤ 8 → (note.notes_flags >>> i) &&& 1 = 0 := by
      intro i hi
      have h2 := hnone (i + 1) (by omega) (by omega)
      unfold SudokuNote.is_value_possible at h2
      simp only [Nat.add_sub_cancel] at h2
      simpa using h2
    rw [popcount9_expand] at h
    rw [hzero 0 (by omega), hzero 1 (by omega), hzero 2 (by omega), hzero 3 (by omega),
      hzero 4 (by omega), hzero 5 (by omega), hzero 6 (by omega), hzero 7 (by omega),
      hzero 8 (by omega)] at h
    omega
  rcases List.exists_cons_of_ne_nil hne with ⟨a, t, hl⟩
  exact ⟨a, by rw [hl]; rfl⟩

/-! Pointwise reading of the note-making passes. -/

theorem map_range_getD {α : Type _} (n : Nat) (f : Nat → α) (i : Nat) (d : α)
    (hi : i < n) : ((List.range n).map f).getD i d = f i := by
  rw [List.getD_eq_getElem?_getD, List.getElem?_map, List.getElem?_range hi]
  rfl

theorem get_note_new (x y : Nat) (h : x + y * 9 < 81) :
    NotesGrid.new.get_note x y = SudokuNote.new_with_all_values_possible := by
  unfold NotesGrid.new NotesGrid.get_note
  rw [List.getD_eq_getElem?_getD, List.getElem?_replicate]
  simp [NUM_SQUARES, h]

theorem get_note_reset (notes : NotesGrid) (x y : Nat)
    (h : x + y * 9 < notes.grid.length) :
    notes.reset.get_note x y = SudokuNote.new_with_all_values_possible := by
  unfold NotesGrid.reset NotesGrid.get_note
  rw [List.getD_eq_getElem?_getD, List.getElem?_map,
    List.getElem?_eq_getElem h]
  rfl

theorem length_reset (notes : NotesGrid) :
    notes.reset.grid.length = notes.grid.length := by
  simp [NotesGrid.reset]

theorem length_new : NotesGrid.new.grid.length = NUM_SQUARES := by
  simp [NotesGrid.new]

theorem length_make_all_notes (notes : NotesGrid) (s : Sudoku) :
    (make_all_notes notes s).grid.length = NUM_SQUARES := by
  simp [make_all_notes, make_in_cell_notes, make_horizontal_notes, make_vertical_notes]

theorem get_note_make_vertical (notes : NotesGrid) (s : Sudoku) (x y : Nat)
    (hx : x ≤ 8) (hy : y ≤ 8) :
    (make_vertical_notes notes s).get_note x y =
      { notes.get_note x y with
        notes_flags := (notes.get_note x y).notes_flags &&& column_mask s x } := by
  simp only [make_vertical_notes, NotesGrid.get_note]
  rw [map_range_getD _ _ _ _ (show x + y * 9 < NUM_SQUARES by simp only [NUM_SQUARES]; omega)]
  have hmod : (x + y * 9) % 9 = x := by omega
  rw [hmod]

theorem get_note_make_horizontal (notes : NotesGrid) (s : Sudoku) (x y : Nat)
    (hx : x ≤ 8) (hy : y ≤ 8) :
    (make_horizontal_notes notes s).get_note x y =
      { notes.get_note x y with
        notes_flags := (notes.get_note x y).notes_flags &&& row_mask s y } := by
  simp only [make_horizontal_notes, NotesGrid.get_note]
  rw [map_range_getD _ _ _ _ (show x + y * 9 < NUM_SQUARES by simp only [NUM_SQUARES]; omega)]
  have hdiv : (x + y * 9) / 9 = y := by omega
  rw [hdiv]

theorem get_note_make_in_cell (notes : NotesGrid) (s : Sudoku) (x y : Nat)
    (hx : x ≤ 8) (hy : y ≤ 8) :
    (make_in_cell_notes notes s).get_note x y =
      { notes.get_note x y with
        notes_flags := (notes.get_note x y).notes_flags &&& box_mask s (x / 3) (y / 3) } := by
  simp only [make_in_cell_notes, NotesGrid.get_note]
  rw [map_range_getD _ _ _ _ (show x + y * 9 < NUM_SQUARES by simp only [NUM_SQUARES]; omega)]
  have hmod : (x + y * 9) % 9 = x := by omega
  have hdiv : (x + y * 9) / 9 = y := by omega
  rw [hmod, hdiv]

theorem get_note_make_all_notes (notes : NotesGrid) (s : Sudoku) (x y : Nat)
    (hx : x ≤ 8) (hy : y ≤ 8) :
    (make_all_notes notes s).get_note x y =
      ⟨(notes.get_note x y).notes_flags &&& column_mask s x &&& row_mask s y &&&
        box_mask s (x / 3) (y / 3),
       popcount9 ((notes.get_note x y).notes_flags &&& column_mask s x &&& row_mask s y &&&
        box_mask s (x / 3) (y / 3))⟩ := by
  simp only [make_all_notes, NotesGrid.get_note]
  rw [show (⟨0, 0⟩ : SudokuNote) =
    (fun note : SudokuNote => { note with num_values_possible := popcount9 note.notes_flags })
      ⟨0, 0⟩ from rfl]
  rw [List.getD_map]
  have h3 : (make_in_cell_notes (make_horizontal_notes (make_vertical_notes notes s) s) s).grid.getD
      (x + y * 9) ⟨0, 0⟩
      = (make_in_cell_notes (make_horizontal_notes (make_vertical_notes notes s) s) s).get_note x y := rfl
  rw [h3, get_note_make_in_cell _ _ _ _ hx hy, get_note_make_horizontal _ _ _ _ hx hy,
    get_note_make_vertical _ _ _ _ hx hy]
  rfl

/-! Facts about replace_notes_with_values: it only fills empty squares with
values 1..=9, it never shrinks the grid, the returned counter counts exactly
the squares it filled, and a pass that reports zero wrote nothing. -/

theorem replace_fold_facts (notes : NotesGrid) :
    ∀ (L : List (Nat × Nat)), (∀ p ∈ L, p.1 ≤ 8 ∧ p.2 ≤ 8) →
    ∀ (acc : Sudoku × Nat), acc.1.grid.length = NUM_SQUARES →
    (L.foldl (replace_step notes) acc).1.grid.length = NUM_SQUARES ∧
    acc.1.Extends (L.foldl (replace_step notes) acc).1 ∧
    ((∀ v ∈ acc.1.grid, v ≤ 9) → ∀ v ∈ (L.foldl (replace_step notes) acc).1.grid, v ≤ 9) ∧
    (L.foldl (replace_step notes) acc).1.num_empty_squares + (L.foldl (replace_step notes) acc).2
      = acc.1.num_empty_squares + acc.2 ∧
    acc.2 ≤ (L.foldl (replace_step notes) acc).2 ∧
    ((L.foldl (replace_step notes) acc).2 = acc.2 → (L.foldl (replace_step notes) acc).1 = acc.1) := by
  intro L
  induction L with
  | nil =>
    intro _ acc hlen
    exact ⟨hlen, Sudoku.Extends.rfl _, fun h => h, Eq.refl _, Nat.le.refl, fun _ => Eq.refl _⟩
  | cons p L ih =>
    intro hb acc hlen
    have hbp := hb p (List.mem_cons_self p L)
    have hbL : ∀ q ∈ L, q.1 ≤ 8 ∧ q.2 ≤ 8 := fun q hq => hb q (List.mem_cons_of_mem p hq)
    rw [List.foldl_cons]
    by_cases hcond : ((notes.get_note p.1 p.2).num_values_possible == 1 &&
        acc.1.get_value p.1 p.2 == 0) = true
    · cases hhead : (notes.get_note p.1 p.2).possible_values.head? with
      | none =>
        have hstep : replace_step notes acc p = acc := by
          simp only [replace_step, hcond, hhead, if_true]
        rw [hstep]
        exact ih hbL acc hlen
      | some v =>
        have hv := head_possible_values hhead
        have hempty : acc.1.get_value p.1 p.2 = 0 := by
          have h2 := (Bool.and_eq_true _ _).mp hcond
          simpa using h2.2
        have hstep : replace_step notes acc p = (acc.1.set_value p.1 p.2 v, acc.2 + 1) := by
          simp only [replace_step, hcond, hhead, if_true]
        rw [hstep]
        have hlen1 : (acc.1.set_value p.1 p.2 v).grid.length = NUM_SQUARES := by
          rw [length_set_value]; exact hlen
        have ih2 := ih hbL (acc.1.set_value p.1 p.2 v, acc.2 + 1) hlen1
        dsimp only at ih2
        rcases ih2 with ⟨ihlen, ihext, ihvals, ihcount, ihmono, ihsame⟩
        refine ⟨ihlen, ?_, ?_, ?_, by omega, ?_⟩
        · exact Sudoku.Extends.trans
            (extends_set_value_of_empty p.1 p.2 v hbp.1 hbp.2 hlen hempty) ihext
        · intro hvals
          exact ihvals (values_le_set_value acc.1 p.1 p.2 v hv.2.1 hvals)
        · have hdrop : (acc.1.set_value p.1 p.2 v).num_empty_squares + 1
              = acc.1.num_empty_squares :=
            num_empty_set_value acc.1 p.1 p.2 v hbp.1 hbp.2 (by omega) hlen hempty
          omega
        · intro hsame
          omega
    · have hstep : replace_step notes acc p = acc := by
        rw [Bool.not_eq_true] at hcond
        simp [replace_step, hcond]
      rw [hstep]
      exact ih hbL acc hlen

theorem replace_scan_order_bounds : ∀ p ∈ replace_scan_order, p.1 ≤ 8 ∧ p.2 ≤ 8 := by
  intro p hp
  unfold replace_scan_order at hp
  simp only [List.mem_flatMap, List.mem_map, List.mem_range] at hp
  rcases hp with ⟨x, hx, y, hy, rfl⟩
  exact ⟨by omega, by omega⟩

theorem replace_facts (s : Sudoku) (notes : NotesGrid) (hlen : s.grid.length = NUM_SQUARES) :
    (replace_notes_with_values s notes).1.grid.length = NUM_SQUARES ∧
    s.Extends (replace_notes_with_values s notes).1 ∧
    ((∀ v ∈ s.grid, v ≤ 9) → ∀ v ∈ (replace_notes_with_values s notes).1.grid, v ≤ 9) ∧
    (replace_notes_with_values s notes).1.num_empty_squares + (replace_notes_with_values s notes).2
      = s.num_empty_squares ∧
    ((replace_notes_with_values s notes).2 = 0 → (replace_notes_with_values s notes).1 = s) := by
  have h := replace_fold_facts notes replace_scan_order replace_scan_order_bounds (s, 0) hlen
  dsimp only at h
  unfold replace_notes_with_values
  exact ⟨h.1, h.2.1, h.2.2.1, by have := h.2.2.2.1; omega, fun hz => h.2.2.2.2.2 hz⟩

/-! Termination and structural facts about the deduction loop advance_with_notes. -/

theorem advance_unfold (fuel : Nat) (s : Sudoku) (notes : NotesGrid) :
    advance_with_notes (fuel + 1) s notes =
      if (replace_notes_with_values s (make_all_notes notes s)).2 == 0 then
        some ((replace_notes_with_values s (make_all_notes notes s)).1, make_all_notes notes s)
      else
        advance_with_notes fuel (replace_notes_with_values s (make_all_notes notes s)).1
          (make_all_notes notes s) := rfl

theorem advance_terminates : ∀ (fuel : Nat) (s : Sudoku) (notes : NotesGrid),
    s.grid.length = NUM_SQUARES → s.num_empty_squares < fuel →
    (advance_with_notes fuel s notes).isSome = true := by
  intro fuel
  induction fuel with
  | zero => intro s notes _ h; omega
  | succ f ih =>
    intro s notes hlen hfuel
    rw [advance_unfold]
    cases hz : (replace_notes_with_values s (make_all_notes notes s)).2 == 0 with
    | true => simp
    | false =>
      simp only [Bool.false_eq_true, if_false]
      have hnz : (replace_notes_with_values s (make_all_notes notes s)).2 ≠ 0 := by
        intro h0
        rw [h0] at hz
        simp at hz
      have hf := replace_facts s (make_all_notes notes s) hlen
      apply ih _ _ hf.1
      omega

theorem advance_facts : ∀ (fuel : Nat) (s : Sudoku) (notes : NotesGrid)
    (s' : Sudoku) (ns' : NotesGrid),
    s.grid.length = NUM_SQUARES →
    advance_with_notes fuel s notes = some (s', ns') →
    s'.grid.length = NUM_SQUARES ∧ s.Extends s' ∧
    ((∀ v ∈ s.grid, v ≤ 9) → ∀ v ∈ s'.grid, v ≤ 9) ∧
    replace_notes_with_values s' ns' = (s', 0) := by
  intro fuel
  induction fuel with
  | zero =>
    intro s notes s' ns' _ h
    exact absurd h (by unfold advance_with_notes; simp)
  | succ f ih =>
    intro s notes s' ns' hlen h
    rw [advance_unfold] at h
    cases hz : (replace_notes_with_values s (make_all_notes notes s)).2 == 0 with
    | true =>
      rw [hz] at h
      simp only [if_true] at h
      have hz0 : (replace_notes_with_values s (make_all_notes notes s)).2 = 0 := by
        simpa using hz
      have hf := replace_facts s (make_all_notes notes s) hlen
      have hsame : (replace_notes_with_values s (make_all_notes notes s)).1 = s :=
        hf.2.2.2.2 hz0
      obtain ⟨h1, h2⟩ : (replace_notes_with_values s (make_all_notes notes s)).1 = s' ∧
          make_all_notes notes s = ns' := by simpa using h
      have e1 : s' = s := by rw [← h1, hsame]
      refine ⟨?_, ?_, ?_, ?_⟩
      · rw [e1]; exact hlen
      · rw [e1]; exact Sudoku.Extends.rfl s
      · rw [e1]; exact fun hv => hv
      · rw [e1, ← h2]
        have hpair : replace_notes_with_values s (make_all_notes notes s) =
            ((replace_notes_with_values s (make_all_notes notes s)).1,
             (replace_notes_with_values s (make_all_notes notes s)).2) := Prod.mk.eta.symm
        rw [hpair, hsame, hz0]
    | false =>
      rw [hz] at h
      simp only [Bool.false_eq_true, if_false] at h
      have hf := replace_facts s (make_all_notes notes s) hlen
      have ihf := ih _ _ s' ns' hf.1 h
      exact ⟨ihf.1, hf.2.1.trans ihf.2.1, fun hv => ihf.2.2.1 (hf.2.2.1 hv), ihf.2.2.2⟩

/-- The fuel num_empty_squares + 1 used by advance_run always suffices. -/
theorem advance_run_spec (s : Sudoku) (notes : NotesGrid)
    (hlen : s.grid.length = NUM_SQUARES) :
    advance_with_notes (s.num_empty_squares + 1) s notes = some (advance_run s notes) := by
  have h := advance_terminates (s.num_empty_squares + 1) s notes hlen (by omega)
  unfold advance_run
  cases hadv : advance_with_notes (s.num_empty_squares + 1) s notes with
  | none => rw [hadv] at h; simp at h
  | some p => rfl

theorem advance_run_facts (s : Sudoku) (notes : NotesGrid)
    (hlen : s.grid.length = NUM_SQUARES) :
    (advance_run s notes).1.grid.length = NUM_SQUARES ∧
    s.Extends (advance_run s notes).1 ∧
    ((∀ v ∈ s.grid, v ≤ 9) → ∀ v ∈ (advance_run s notes).1.grid, v ≤ 9) ∧
    replace_notes_with_values (advance_run s notes).1 (advance_run s notes).2
      = ((advance_run s notes).1, 0) := by
  have h := advance_run_spec s notes hlen
  have hp : advance_run s notes = ((advance_run s notes).1, (advance_run s notes).2) :=
    Prod.mk.eta.symm
  rw [hp] at h
  exact advance_facts _ s notes _ _ hlen h

/-! Characterization of the duplicate scan line_check: it accepts exactly the
lines whose nonzero values avoid the seen-mask and repeat at most once. -/


theorem line_read_eq_testBit (flags i : Nat) :
    ((flags >>> i) &&& 1 == 1) = flags.testBit i := by
  rw [shift_and_one, Nat.testBit_to_div_mod]
  by_cases h : flags / 2 ^ i % 2 = 1 <;> simp [h]

theorem testBit_or_shift (flags v w : Nat) (hv : 1 ≤ v) (hw : 1 ≤ w) :
    (flags ||| (1 <<< (v - 1))).testBit (w - 1)
      = (flags.testBit (w - 1) || decide (v = w)) := by
  rw [Nat.testBit_or, Nat.shiftLeft_eq, one_mul, Nat.testBit_two_pow]
  by_cases h : v = w
  · simp [h]
  · have : ¬(v - 1 = w - 1) := by omega
    simp [h, this]

theorem line_check_iff : ∀ (vals : List Nat) (flags : Nat),
    line_check flags vals = true ↔
      ((∀ v ∈ vals, v ≠ 0 → flags.testBit (v - 1) = false) ∧ nonzero_no_dup vals) := by
  intro vals
  induction vals with
  | nil =>
    intro flags
    simp [line_check, nonzero_no_dup]
  | cons v rest ih =>
    intro flags
    by_cases hv0 : v = 0
    · subst hv0
      have hstep : line_check flags (0 :: rest) = line_check flags rest := by
        simp [line_check]
      rw [hstep, ih]
      constructor
      · intro ⟨hmask, hdup⟩
        refine ⟨?_, ?_⟩
        · intro w hw hw0
          rcases List.mem_cons.mp hw with rfl | hwr
          · exact absurd rfl hw0
          · exact hmask w hwr hw0
        · intro w hw0
          rw [List.count_cons]
          have : ¬((0 : Nat) == w) = true := by simpa using fun h => hw0 h.symm
          simp only [this, if_false]
          exact hdup w hw0
      · intro ⟨hmask, hdup⟩
        refine ⟨?_, ?_⟩
        · intro w hwr hw0
          exact hmask w (List.mem_cons_of_mem 0 hwr) hw0
        · intro w hw0
          have := hdup w hw0
          rw [List.count_cons] at this
          omega
    · have hv1 : 1 ≤ v := by omega
      cases hbit : flags.testBit (v - 1) with
      | true =>
        have hread : ((flags >>> (v - 1)) &&& 1 == 1) = true := by
          rw [line_read_eq_testBit]; exact hbit
        have hstep : line_check flags (v :: rest) = false := by
          unfold line_check
          rw [if_neg (by simpa using hv0), hread, if_pos rfl]
        rw [hstep]
        constructor
        · intro h; exact absurd h (by simp)
        · intro ⟨hmask, _⟩
          have := hmask v (List.mem_cons_self v rest) hv0
          rw [hbit] at this
          exact absurd this (by simp)
      | false =>
        have hread : ((flags >>> (v - 1)) &&& 1 == 1) = false := by
          rw [line_read_eq_testBit]; exact hbit
        have hstep : line_check flags (v :: rest)
            = line_check (flags ||| (1 <<< (v - 1))) rest := by
          show (if v == 0 then line_check flags rest
            else if (flags >>> (v - 1)) &&& 1 == 1 then false
            else line_check (flags ||| (1 <<< (v - 1))) rest)
            = line_check (flags ||| (1 <<< (v - 1))) rest
          rw [if_neg (by simpa using hv0), hread]
          simp
        rw [hstep, ih]
        constructor
        · intro ⟨hmask, hdup⟩
          have hvnotin : v ∉ rest := by
            intro hvin
            have := hmask v hvin hv0
            rw [testBit_or_shift flags v v hv1 hv1] at this
            simp at this
          refine ⟨?_, ?_⟩
          · intro w hw hw0
            rcases List.mem_cons.mp hw with rfl | hwr
            · exact hbit
            · have := hmask w hwr hw0
              rw [testBit_or_shift flags v w hv1 (by omega)] at this
              exact (Bool.or_eq_false_iff.mp this).1
          · intro w hw0
            rw [List.count_cons]
            by_cases hvw : v = w
            · subst hvw
              have : rest.count v = 0 := List.count_eq_zero.mpr hvnotin
              simp [this]
            · have : ¬(v == w) = true := by simpa using hvw
              simp only [this, if_false]
              exact hdup w hw0
        · intro ⟨hmask, hdup⟩
          have hvnotin : v ∉ rest := by
            intro hvin
            have hc := hdup v hv0
            rw [List.count_cons] at hc
            simp at hc
            have : 1 ≤ rest.count v := List.count_pos_iff.mpr hvin
            omega
          refine ⟨?_, ?_⟩
          · intro w hwr hw0
            rw [testBit_or_shift flags v w hv1 (by omega)]
            have h1 := hmask w (List.mem_cons_of_mem v hwr) hw0
            have h2 : ¬(v = w) := by
              intro hvw
              subst hvw
              exact hvnotin hwr
            simp [h1, h2]
          · intro w hw0
            have := hdup w hw0
            rw [List.count_cons] at this
            omega

/-! Lines as coordinate lists, and transport of invalidity along Extends:
filling empty squares never removes a duplicate. -/





theorem row_values_eq (s : Sudoku) (y : Nat) :
    s.row_values y = line_of s (row_coords y) := by
  unfold Sudoku.row_values line_of row_coords
  rw [List.map_map]
  rfl

theorem col_values_eq (s : Sudoku) (x : Nat) :
    s.col_values x = line_of s (col_coords x) := by
  unfold Sudoku.col_values line_of col_coords
  rw [List.map_map]
  rfl

theorem box_values_eq (s : Sudoku) (x_cell y_cell : Nat) :
    s.box_values x_cell y_cell = line_of s (box_coords x_cell y_cell) := by
  unfold Sudoku.box_values line_of box_coords
  rw [List.map_flatMap]
  apply congrArg
  funext x_off
  rw [List.map_map]
  rfl

theorem row_coords_bounds (y : Nat) (hy : y ≤ 8) :
    ∀ p ∈ row_coords y, p.1 ≤ 8 ∧ p.2 ≤ 8 := by
  intro p hp
  unfold row_coords at hp
  simp only [List.mem_map, List.mem_range] at hp
  rcases hp with ⟨x, hx, rfl⟩
  exact ⟨by omega, hy⟩

theorem col_coords_bounds (x : Nat) (hx : x ≤ 8) :
    ∀ p ∈ col_coords x, p.1 ≤ 8 ∧ p.2 ≤ 8 := by
  intro p hp
  unfold col_coords at hp
  simp only [List.mem_map, List.mem_range] at hp
  rcases hp with ⟨y, hy, rfl⟩
  exact ⟨hx, by omega⟩

theorem box_coords_bounds (x_cell y_cell : Nat) (hx : x_cell ≤ 2) (hy : y_cell ≤ 2) :
    ∀ p ∈ box_coords x_cell y_cell, p.1 ≤ 8 ∧ p.2 ≤ 8 := by
  intro p hp
  unfold box_coords at hp
  simp only [List.mem_flatMap, List.mem_map, List.mem_range] at hp
  rcases hp with ⟨dx, hdx, dy, hdy, rfl⟩
  exact ⟨by omega, by omega⟩

theorem count_line_of_le {g g' : Sudoku} (hext : g.Extends g')
    (coords : List (Nat × Nat)) (hb : ∀ p ∈ coords, p.1 ≤ 8 ∧ p.2 ≤ 8)
    (v : Nat) (hv : v ≠ 0) :
    (line_of g coords).count v ≤ (line_of g' coords).count v := by
  unfold line_of
  rw [List.count_eq_countP, List.count_eq_countP, List.countP_map, List.countP_map]
  apply List.countP_mono_left
  intro p hp hpv
  have hbp := hb p hp
  simp only [Function.comp] at hpv ⊢
  have hgv : g.get_value p.1 p.2 = v := by simpa using hpv
  have : g'.get_value p.1 p.2 = g.get_value p.1 p.2 :=
    hext p.1 p.2 hbp.1 hbp.2 (by rw [hgv]; exact hv)
  simp [this, hgv]

theorem line_check_zero_false_iff (vals : List Nat) :
    line_check 0 vals = false ↔ ∃ v, v ≠ 0 ∧ 2 ≤ vals.count v := by
  constructor
  · intro h
    have hne : ¬(line_check 0 vals = true) := by rw [h]; simp
    rw [line_check_iff] at hne
    have hmask : ∀ v ∈ vals, v ≠ 0 → Nat.testBit 0 (v - 1) = false := by
      intro v _ _
      exact Nat.zero_testBit (v - 1)
    have hdup : ¬nonzero_no_dup vals := by
      intro hd
      exact hne ⟨hmask, hd⟩
    unfold nonzero_no_dup at hdup
    push_neg at hdup
    rcases hdup with ⟨v, hv, hc⟩
    exact ⟨v, hv, by omega⟩
  · intro ⟨v, hv, hc⟩
    cases hl : line_check 0 vals with
    | false => rfl
    | true =>
      rw [line_check_iff] at hl
      have := hl.2 v hv
      omega

theorem line_false_transport {g g' : Sudoku} (hext : g.Extends g')
    (coords : List (Nat × Nat)) (hb : ∀ p ∈ coords, p.1 ≤ 8 ∧ p.2 ≤ 8)
    (h : line_check 0 (line_of g coords) = false) :
    line_check 0 (line_of g' coords) = false := by
  rw [line_check_zero_false_iff] at h ⊢
  rcases h with ⟨v, hv, hc⟩
  exact ⟨v, hv, le_trans hc (count_line_of_le hext coords hb v hv)⟩

/-- Invalidity survives filling in more squares: a duplicate pair of nonzero
values stays in place. -/
theorem is_valid_false_extends {g g' : Sudoku} (hext : g.Extends g')
    (hinv : g.is_valid = false) : g'.is_valid = false := by
  unfold Sudoku.is_valid at hinv ⊢
  rcases Bool.and_eq_false_iff.mp hinv with hhv | hbox
  · rcases Bool.and_eq_false_iff.mp hhv with hh | hv
    · apply Bool.and_eq_false_iff.mpr
      left
      apply Bool.and_eq_false_iff.mpr
      left
      unfold Sudoku.fulfills_horizontal_condition at hh ⊢
      rw [List.all_eq_false] at hh ⊢
      rcases hh with ⟨y, hy, hline⟩
      rw [List.mem_range] at hy
      refine ⟨y, List.mem_range.mpr hy, ?_⟩
      rw [Bool.not_eq_true] at hline ⊢
      rw [row_values_eq] at hline ⊢
      exact line_false_transport hext _ (row_coords_bounds y (by omega)) hline
    · apply Bool.and_eq_false_iff.mpr
      left
      apply Bool.and_eq_false_iff.mpr
      right
      unfold Sudoku.fulfills_vertical_condition at hv ⊢
      rw [List.all_eq_false] at hv ⊢
      rcases hv with ⟨x, hx, hline⟩
      rw [List.mem_range] at hx
      refine ⟨x, List.mem_range.mpr hx, ?_⟩
      rw [Bool.not_eq_true] at hline ⊢
      rw [col_values_eq] at hline ⊢
      exact line_false_transport hext _ (col_coords_bounds x (by omega)) hline
  · apply Bool.and_eq_false_iff.mpr
    right
    unfold Sudoku.fulfills_in_3x3_cell_condition at hbox ⊢
    rw [List.all_eq_false] at hbox ⊢
    rcases hbox with ⟨xc, hxc, hinner⟩
    rw [List.mem_range] at hxc
    refine ⟨xc, List.mem_range.mpr hxc, ?_⟩
    rw [Bool.not_eq_true] at hinner ⊢
    rw [List.all_eq_false] at hinner ⊢
    rcases hinner with ⟨yc, hyc, hline⟩
    rw [List.mem_range] at hyc
    refine ⟨yc, List.mem_range.mpr hyc, ?_⟩
    rw [Bool.not_eq_true] at hline ⊢
    rw [box_values_eq] at hline ⊢
    exact line_false_transport hext _ (box_coords_bounds xc yc (by omega) (by omega)) hline

/-! The solver loop: unfolding, branch facts, stack invariants and replay. -/

theorem solver_loop_unfold (orig : Sudoku) (fuel : Nat) (grid : Sudoku)
    (notes : NotesGrid) (lv : Nat) (stack : ChangeStack) :
    solver_loop orig (fuel + 1) grid notes lv stack =
      (if !(advance_run grid notes).1.is_valid ||
          is_dead_end (advance_run grid notes).1 (advance_run grid notes).2 then
        match stack with
        | [] => some (none, [])
        | c :: rest =>
          solver_loop orig fuel (replay orig rest) (advance_run grid notes).2.reset c.value rest
      else if (advance_run grid notes).1.num_empty_squares == 0 then
        some (some (advance_run grid notes).1, stack)
      else
        match find_branch (advance_run grid notes).1 (advance_run grid notes).2 lv with
        | some (x, y, v) =>
          solver_loop orig fuel ((advance_run grid notes).1.set_value x y v)
            (advance_run grid notes).2 0 (⟨x, y, v⟩ :: stack)
        | none =>
          match stack with
          | [] => some (none, [])
          | c :: rest =>
            solver_loop orig fuel (replay orig rest) (advance_run grid notes).2.reset c.value rest) := rfl

theorem find_branch_some {g : Sudoku} {notes : NotesGrid} {lv x y v : Nat}
    (h : find_branch g notes lv = some (x, y, v)) :
    x ≤ 8 ∧ y ≤ 8 ∧ 1 ≤ v ∧ v ≤ 9 ∧ g.get_value x y = 0 ∧ lv < v := by
  unfold find_branch at h
  rcases List.exists_of_findSome?_eq_some h with ⟨y', hy', hinner⟩
  rw [List.mem_range] at hy'
  rcases List.exists_of_findSome?_eq_some hinner with ⟨x', hx', hfind⟩
  rw [List.mem_range] at hx'
  rcases Option.map_eq_some'.mp hfind with ⟨v', hv', heq⟩
  obtain ⟨rfl, rfl, rfl⟩ : x' = x ∧ y' = y ∧ v' = v := by
    have h1 := congrArg Prod.fst heq
    have h2 := congrArg (fun p => p.2.1) heq
    have h3 := congrArg (fun p => p.2.2) heq
    exact ⟨h1, h2, h3⟩
  have hpred := List.find?_some hv'
  have hmem := List.mem_of_find?_eq_some hv'
  have hval := mem_possible_values.mp hmem
  have hpred2 := (Bool.and_eq_true _ _).mp hpred
  refine ⟨by omega, by omega, hval.1, hval.2.1, by simpa using hpred2.2, by
    have := hpred2.1
    simpa using this⟩




theorem foldl_set_facts : ∀ (L : List ValueChange) (g : Sudoku) (orig : Sudoku),
    g.grid.length = NUM_SQUARES →
    (∀ c ∈ L, c.x ≤ 8 ∧ c.y ≤ 8 ∧ c.value ≤ 9 ∧ orig.get_value c.x c.y = 0) →
    orig.Extends g →
    (L.foldl (fun g c => g.set_value c.x c.y c.value) g).grid.length = NUM_SQUARES ∧
    orig.Extends (L.foldl (fun g c => g.set_value c.x c.y c.value) g) ∧
    ((∀ v ∈ g.grid, v ≤ 9) →
      ∀ v ∈ (L.foldl (fun g c => g.set_value c.x c.y c.value) g).grid, v ≤ 9) := by
  intro L
  induction L with
  | nil => intro g orig hlen _ hext; exact ⟨hlen, hext, fun h => h⟩
  | cons a L ih =>
    intro g orig hlen hok hext
    have ha := hok a (List.mem_cons_self a L)
    have hokL : ∀ c ∈ L, c.x ≤ 8 ∧ c.y ≤ 8 ∧ c.value ≤ 9 ∧ orig.get_value c.x c.y = 0 :=
      fun c hc => hok c (List.mem_cons_of_mem a hc)
    rw [List.foldl_cons]
    have hlen1 : (g.set_value a.x a.y a.value).grid.length = NUM_SQUARES := by
      rw [length_set_value]; exact hlen
    have hext1 : orig.Extends (g.set_value a.x a.y a.value) := by
      intro x' y' hx' hy' hnz
      rw [get_value_set_value g a.x a.y x' y' a.value ha.1 ha.2.1 hx' hy' hlen]
      have hne : ¬(a.x = x' ∧ a.y = y') := by
        intro ⟨he1, he2⟩
        rw [he1, he2] at ha
        exact hnz ha.2.2.2
      rw [if_neg hne]
      exact hext x' y' hx' hy' hnz
    rcases ih (g.set_value a.x a.y a.value) orig hlen1 hokL hext1 with ⟨h1, h2, h3⟩
    exact ⟨h1, h2, fun hv => h3 (values_le_set_value g a.x a.y a.value ha.2.2.1 hv)⟩

theorem foldl_set_get_other : ∀ (L : List ValueChange) (g : Sudoku) (x y : Nat),
    g.grid.length = NUM_SQUARES →
    (∀ c ∈ L, c.x ≤ 8 ∧ c.y ≤ 8) →
    (∀ c ∈ L, ¬(c.x = x ∧ c.y = y)) →
    x ≤ 8 → y ≤ 8 →
    (L.foldl (fun g c => g.set_value c.x c.y c.value) g).get_value x y = g.get_value x y := by
  intro L
  induction L with
  | nil => intro g x y _ _ _ _ _; rfl
  | cons a L ih =>
    intro g x y hlen hb hne hx hy
    have hba := hb a (List.mem_cons_self a L)
    rw [List.foldl_cons]
    rw [ih (g.set_value a.x a.y a.value) x y (by rw [length_set_value]; exact hlen)
      (fun c hc => hb c (List.mem_cons_of_mem a hc))
      (fun c hc => hne c (List.mem_cons_of_mem a hc)) hx hy]
    rw [get_value_set_value g a.x a.y x y a.value hba.1 hba.2 hx hy hlen]
    rw [if_neg (hne a (List.mem_cons_self a L))]

theorem foldl_set_marked : ∀ (L : List ValueChange) (g : Sudoku),
    g.grid.length = NUM_SQUARES →
    (∀ c ∈ L, c.x ≤ 8 ∧ c.y ≤ 8) →
    L.Pairwise (fun a b => ¬(a.x = b.x ∧ a.y = b.y)) →
    ∀ c ∈ L, (L.foldl (fun g c => g.set_value c.x c.y c.value) g).get_value c.x c.y = c.value := by
  intro L
  induction L with
  | nil => intro g _ _ _ c hc; exact absurd hc (List.not_mem_nil c)
  | cons a L ih =>
    intro g hlen hb hpw c hc
    have hba := hb a (List.mem_cons_self a L)
    have hbL : ∀ d ∈ L, d.x ≤ 8 ∧ d.y ≤ 8 := fun d hd => hb d (List.mem_cons_of_mem a hd)
    rw [List.pairwise_cons] at hpw
    rw [List.foldl_cons]
    rcases List.mem_cons.mp hc with rfl | hcL
    · rw [foldl_set_get_other L (g.set_value c.x c.y c.value) c.x c.y
        (by rw [length_set_value]; exact hlen) hbL
        (fun d hd => by
          have := hpw.1 d hd
          intro ⟨h1, h2⟩
          exact this ⟨h1.symm, h2.symm⟩) hba.1 hba.2]
      rw [get_value_set_value g c.x c.y c.x c.y c.value hba.1 hba.2 hba.1 hba.2 hlen]
      rw [if_pos ⟨rfl, rfl⟩]
    · exact ih (g.set_value a.x a.y a.value) (by rw [length_set_value]; exact hlen)
        hbL hpw.2 c hcL

theorem replay_facts (orig : Sudoku) (stack : ChangeStack)
    (hwf : orig.WellFormed) (hok : stack_cells_ok orig stack) :
    (replay orig stack).grid.length = NUM_SQUARES ∧
    orig.Extends (replay orig stack) ∧
    (∀ v ∈ (replay orig stack).grid, v ≤ 9) := by
  unfold replay
  have hok' : ∀ c ∈ stack.reverse, c.x ≤ 8 ∧ c.y ≤ 8 ∧ c.value ≤ 9 ∧
      orig.get_value c.x c.y = 0 := by
    intro c hc
    have := hok c (List.mem_reverse.mp hc)
    exact ⟨this.1, this.2.1, this.2.2.2.1, this.2.2.2.2⟩
  have h := foldl_set_facts stack.reverse orig orig hwf.1 hok' (Sudoku.Extends.rfl orig)
  exact ⟨h.1, h.2.1, h.2.2 hwf.2⟩

theorem replay_marked (orig : Sudoku) (stack : ChangeStack)
    (hwf : orig.WellFormed) (hok : stack_cells_ok orig stack)
    (hdist : stack_distinct stack) :
    ∀ c ∈ stack, (replay orig stack).get_value c.x c.y = c.value := by
  intro c hc
  unfold replay
  apply foldl_set_marked stack.reverse orig hwf.1
    (fun d hd => by
      have := hok d (List.mem_reverse.mp hd)
      exact ⟨this.1, this.2.1⟩)
    (by
      rw [List.pairwise_reverse]
      unfold stack_distinct at hdist
      apply List.Pairwise.imp _ hdist
      intro a b hab ⟨h1, h2⟩
      exact hab ⟨h1.symm, h2.symm⟩)
    c (List.mem_reverse.mpr hc)

/-! The stack length is bounded by the number of originally empty squares. -/

theorem count_filter_range (l : List Nat) :
    ((List.range l.length).filter (fun i => l.getD i 0 == 0)).length = l.count 0 := by
  induction l with
  | nil => simp
  | cons a t ih =>
    rw [List.length_cons, List.range_succ_eq_map, List.filter_cons]
    by_cases ha : a = 0
    · subst ha
      simp only [List.getD_cons_zero]
      rw [if_pos (by simp)]
      rw [List.length_cons]
      rw [List.filter_map, List.length_map]
      have : ((fun i => (0 :: t).getD i 0 == 0) ∘ Nat.succ) = (fun i => t.getD i 0 == 0) := by
        funext i
        simp [Function.comp, List.getD_cons_succ]
      rw [this, ih, List.count_cons]
      simp
    · simp only [List.getD_cons_zero]
      rw [if_neg (by simpa using ha)]
      rw [List.filter_map, List.length_map]
      have : ((fun i => (a :: t).getD i 0 == 0) ∘ Nat.succ) = (fun i => t.getD i 0 == 0) := by
        funext i
        simp [Function.comp, List.getD_cons_succ]
      rw [this, ih, List.count_cons]
      have : ¬((a == 0) = true) := by simpa using ha
      simp [this]

theorem stack_length_le (orig : Sudoku) (stack : ChangeStack)
    (hwf : orig.WellFormed) (hok : stack_cells_ok orig stack)
    (hdist : stack_distinct stack) :
    stack.length ≤ orig.num_empty_squares := by
  have hlen81 : orig.grid.length = 81 := by
    have := hwf.1
    simpa [NUM_SQUARES] using this
  have hnodup : (stack.map (fun c => c.x + c.y * 9)).Nodup := by
    unfold List.Nodup
    rw [List.pairwise_map]
    apply List.Pairwise.imp_of_mem _ hdist
    intro a b ha hb hab heq
    have hba := hok a ha
    have hbb := hok b hb
    apply hab
    constructor <;> omega
  have hsub : stack.map (fun c => c.x + c.y * 9) ⊆
      (List.range orig.grid.length).filter (fun i => orig.grid.getD i 0 == 0) := by
    intro i hi
    rcases List.mem_map.mp hi with ⟨c, hc, rfl⟩
    have hbc := hok c hc
    rw [List.mem_filter, List.mem_range]
    constructor
    · omega
    · have : orig.grid.getD (c.x + c.y * 9) 0 = orig.get_value c.x c.y := rfl
      rw [this, hbc.2.2.2.2]
      rfl
  have hle := (List.subperm_of_subset hnodup hsub).length_le
  rw [List.length_map] at hle
  rw [count_filter_range orig.grid] at hle
  exact hle

/-! The central preservation theorem: one outer-loop run keeps the stack
invariant and only ever yields solved grids that preserve the original clues. -/

theorem solver_loop_preserves :
    ∀ (fuel : Nat) (orig : Sudoku), orig.WellFormed →
    ∀ (grid : Sudoku) (notes : NotesGrid) (lv : Nat) (stack : ChangeStack)
      (res : Option Sudoku) (stack' : ChangeStack),
    grid.grid.length = NUM_SQUARES →
    (∀ v ∈ grid.grid, v ≤ 9) →
    orig.Extends grid →
    stack_cells_ok orig stack →
    stack_distinct stack →
    (∀ c ∈ stack, grid.get_value c.x c.y = c.value) →
    solver_loop orig fuel grid notes lv stack = some (res, stack') →
    (stack_cells_ok orig stack' ∧ stack_distinct stack') ∧
    ∀ S, res = some S → S.is_solved = true ∧
      ∀ x y, x ≤ 8 → y ≤ 8 → orig.get_value x y ≠ 0 →
        S.get_value x y = orig.get_value x y := by
  intro fuel
  induction fuel with
  | zero =>
    intro orig hwf grid notes lv stack res stack' _ _ _ _ _ _ h
    exact absurd h (by simp [solver_loop])
  | succ f ih =>
    intro orig hwf grid notes lv stack res stack' hlen hvals hext hok hdist hmark h
    rw [solver_loop_unfold] at h
    rcases hAdv : advance_run grid notes with ⟨g1, ns1⟩
    have hf := advance_run_facts grid notes hlen
    rw [hAdv] at hf h
    dsimp only at hf h
    have hlen1 : g1.grid.length = NUM_SQUARES := hf.1
    have hvals1 : ∀ v ∈ g1.grid, v ≤ 9 := hf.2.2.1 hvals
    have hext1 : orig.Extends g1 := hext.trans hf.2.1
    have hmark1 : ∀ c ∈ stack, g1.get_value c.x c.y = c.value := by
      intro c hc
      have hm := hmark c hc
      have hb := hok c hc
      have hkeep := hf.2.1 c.x c.y hb.1 hb.2.1 (by rw [hm]; omega)
      rw [hkeep, hm]
    by_cases hc1 : (!g1.is_valid || is_dead_end g1 ns1) = true
    · rw [if_pos hc1] at h
      cases stack with
      | nil =>
        obtain ⟨hres, hstack⟩ : none = res ∧ ([] : ChangeStack) = stack' := by
          simpa using h
        subst hres
        subst hstack
        refine ⟨⟨fun c hc => absurd hc (List.not_mem_nil c), List.Pairwise.nil⟩, ?_⟩
        intro S hS
        exact absurd hS (by simp)
      | cons c rest =>
        have hokR : stack_cells_ok orig rest := fun d hd => hok d (List.mem_cons_of_mem c hd)
        have hdistR : stack_distinct rest := (List.pairwise_cons.mp hdist).2
        have rf := replay_facts orig rest hwf hokR
        exact ih orig hwf (replay orig rest) ns1.reset c.value rest res stack'
          rf.1 rf.2.2 rf.2.1 hokR hdistR (replay_marked orig rest hwf hokR hdistR) h
    · rw [if_neg hc1] at h
      have hvalid : g1.is_valid = true := by
        rw [Bool.not_eq_true] at hc1
        rcases Bool.or_eq_false_iff.mp hc1 with ⟨hnv, _⟩
        revert hnv
        cases g1.is_valid <;> simp
      cases hnum : (g1.num_empty_squares == 0) with
      | true =>
        rw [hnum, if_pos rfl] at h
        obtain ⟨hres, hstack⟩ : some g1 = res ∧ stack = stack' := by
          simpa using h
        refine ⟨⟨hstack ▸ hok, hstack ▸ hdist⟩, ?_⟩
        intro S hS
        have hSg1 : S = g1 := by
          rw [← hres] at hS
          simpa using hS.symm
        subst hSg1
        constructor
        · unfold Sudoku.is_solved
          have hne : S.num_empty_squares = 0 := by simpa using hnum
          have hhe : S.has_empty_squares = false := by
            cases hcase : S.has_empty_squares with
            | false => rfl
            | true =>
              have := (has_empty_squares_iff S hlen1).mp hcase
              exact absurd hne this
          rw [hhe, hvalid]
          rfl
        · intro x y hx hy hnz
          exact hext1 x y hx hy hnz
      | false =>
        rw [hnum] at h
        simp only [Bool.false_eq_true, if_false] at h
        cases hfb : find_branch g1 ns1 lv with
        | some t =>
          rcases t with ⟨x, y, v⟩
          rw [hfb] at h
          have hbf := find_branch_some hfb
          have hempty1 : g1.get_value x y = 0 := hbf.2.2.2.2.1
          have horig0 : orig.get_value x y = 0 := by
            by_contra hnz
            have := hext1 x y hbf.1 hbf.2.1 hnz
            rw [hempty1] at this
            exact hnz this.symm
          have hlen2 : (g1.set_value x y v).grid.length = NUM_SQUARES := by
            rw [length_set_value]; exact hlen1
          have hvals2 : ∀ w ∈ (g1.set_value x y v).grid, w ≤ 9 :=
            values_le_set_value g1 x y v hbf.2.2.2.1 hvals1
          have hext2 : orig.Extends (g1.set_value x y v) :=
            hext1.trans (extends_set_value_of_empty x y v hbf.1 hbf.2.1 hlen1 hempty1)
          have hnewcell : ∀ c ∈ stack, ¬(({ x := x, y := y, value := v } : ValueChange).x = c.x ∧
              ({ x := x, y := y, value := v } : ValueChange).y = c.y) := by
            intro c hc ⟨h1, h2⟩
            have := hmark1 c hc
            have hbc := hok c hc
            rw [← h1, ← h2] at this
            rw [hempty1] at this
            omega
          have hok2 : stack_cells_ok orig (⟨x, y, v⟩ :: stack) := by
            intro c hc
            rcases List.mem_cons.mp hc with rfl | hcs
            · exact ⟨hbf.1, hbf.2.1, hbf.2.2.1, hbf.2.2.2.1, horig0⟩
            · exact hok c hcs
          have hdist2 : stack_distinct (⟨x, y, v⟩ :: stack) := by
            unfold stack_distinct
            rw [List.pairwise_cons]
            exact ⟨hnewcell, hdist⟩
          have hmark2 : ∀ c ∈ (⟨x, y, v⟩ :: stack : ChangeStack),
              (g1.set_value x y v).get_value c.x c.y = c.value := by
            intro c hc
            rcases List.mem_cons.mp hc with rfl | hcs
            · rw [get_value_set_value g1 x y _ _ v hbf.1 hbf.2.1 hbf.1 hbf.2.1 hlen1]
              rw [if_pos ⟨rfl, rfl⟩]
            · have hbc := hok c hcs
              rw [get_value_set_value g1 x y _ _ v hbf.1 hbf.2.1 hbc.1 hbc.2.1 hlen1]
              rw [if_neg (hnewcell c hcs)]
              exact hmark1 c hcs
          exact ih orig hwf (g1.set_value x y v) ns1 0 (⟨x, y, v⟩ :: stack) res stack'
            hlen2 hvals2 hext2 hok2 hdist2 hmark2 h
        | none =>
          rw [hfb] at h
          cases stack with
          | nil =>
            obtain ⟨hres, hstack⟩ : none = res ∧ ([] : ChangeStack) = stack' := by
              simpa using h
            subst hres
            subst hstack
            refine ⟨⟨fun c hc => absurd hc (List.not_mem_nil c), List.Pairwise.nil⟩, ?_⟩
            intro S hS
            exact absurd hS (by simp)
          | cons c rest =>
            have hokR : stack_cells_ok orig rest := fun d hd => hok d (List.mem_cons_of_mem c hd)
            have hdistR : stack_distinct rest := (List.pairwise_cons.mp hdist).2
            have rf := replay_facts orig rest hwf hokR
            exact ih orig hwf (replay orig rest) ns1.reset c.value rest res stack'
              rf.1 rf.2.2 rf.2.1 hokR hdistR (replay_marked orig rest hwf hokR hdistR) h

theorem next_fuel_preserves (orig : Sudoku) (stack : ChangeStack) (fuel : Nat)
    (res : Option Sudoku) (stack' : ChangeStack)
    (hwf : orig.WellFormed) (hinv : StackInv orig stack)
    (h : next_fuel orig stack fuel = some (res, stack')) :
    StackInv orig stack' ∧
    ∀ S, res = some S → S.is_solved = true ∧
      ∀ x y, x ≤ 8 → y ≤ 8 → orig.get_value x y ≠ 0 →
        S.get_value x y = orig.get_value x y := by
  cases stack with
  | nil =>
    unfold next_fuel at h
    have hok : stack_cells_ok orig [] := fun c hc => absurd hc (List.not_mem_nil c)
    have rf := replay_facts orig [] hwf hok
    have hp := solver_loop_preserves fuel orig hwf (replay orig []) NotesGrid.new 0 []
      res stack' rf.1 rf.2.2 rf.2.1 hok List.Pairwise.nil
      (fun c hc => absurd hc (List.not_mem_nil c)) h
    exact ⟨⟨hp.1.1, hp.1.2⟩, hp.2⟩
  | cons c rest =>
    unfold next_fuel at h
    have hokR : stack_cells_ok orig rest := fun d hd => hinv.1 d (List.mem_cons_of_mem c hd)
    have hdistR : stack_distinct rest := (List.pairwise_cons.mp hinv.2).2
    have rf := replay_facts orig rest hwf hokR
    have hp := solver_loop_preserves fuel orig hwf (replay orig rest) NotesGrid.new c.value rest
      res stack' rf.1 rf.2.2 rf.2.1 hokR hdistR
      (replay_marked orig rest hwf hokR hdistR) h
    exact ⟨⟨hp.1.1, hp.1.2⟩, hp.2⟩

/-- C2: every grid yielded by a next call of find_all_solutions (started from
any reachable iterator state: a stack of in-range, originally-empty, pairwise
distinct squares; in particular the initial empty stack) is solved, and it
agrees with the original puzzle on every originally nonzero square: clues are
preserved. -/
theorem solutions_are_solved_and_preserve_clues
    (P : Sudoku) (stack : ChangeStack) (fuel : Nat) (S : Sudoku)
    (stack' : ChangeStack)
    (hwf : P.WellFormed) (hinv : StackInv P stack)
    (h : next_fuel P stack fuel = some (some S, stack')) :
    S.is_solved = true ∧
    ∀ x y, x ≤ 8 → y ≤ 8 → P.get_value x y ≠ 0 →
      S.get_value x y = P.get_value x y :=
  (next_fuel_preserves P stack fuel (some S) stack' hwf hinv h).2 S rfl

/-- C7: the change-stack invariant of the search. If a next call starts from a
stack whose changes all target distinct squares that are empty in the original
puzzle (as the initial empty stack does), the stack it leaves behind satisfies
the same invariant, and both stacks are no longer than the number of
originally empty squares. -/
theorem change_stack_invariant
    (P : Sudoku) (stack : ChangeStack) (fuel : Nat) (res : Option Sudoku)
    (stack' : ChangeStack)
    (hwf : P.WellFormed) (hinv : StackInv P stack)
    (h : next_fuel P stack fuel = some (res, stack')) :
    StackInv P stack' ∧ stack'.length ≤ P.num_empty_squares ∧
    stack.length ≤ P.num_empty_squares := by
  have hp := next_fuel_preserves P stack fuel res stack' hwf hinv h
  exact ⟨hp.1, stack_length_le P stack' hwf hp.1.1 hp.1.2,
    stack_length_le P stack hwf hinv.1 hinv.2⟩

/-! Behavior of a next call on a grid with no empty squares, and on an invalid
grid. -/

theorem replace_full_fold (notes : NotesGrid) (s : Sudoku)
    (hfull : ∀ x y, x ≤ 8 → y ≤ 8 → s.get_value x y ≠ 0) :
    ∀ (L : List (Nat × Nat)), (∀ p ∈ L, p.1 ≤ 8 ∧ p.2 ≤ 8) →
    ∀ n, L.foldl (replace_step notes) (s, n) = (s, n) := by
  intro L
  induction L with
  | nil => intro _ n; rfl
  | cons p L ih =>
    intro hb n
    have hbp := hb p (List.mem_cons_self p L)
    rw [List.foldl_cons]
    have hget : (s.get_value p.1 p.2 == 0) = false := by
      have := hfull p.1 p.2 hbp.1 hbp.2
      simpa using this
    have hstep : replace_step notes (s, n) p = (s, n) := by
      simp [replace_step, hget]
    rw [hstep]
    exact ih (fun q hq => hb q (List.mem_cons_of_mem p hq)) n

theorem replace_full_grid (notes : NotesGrid) (s : Sudoku)
    (hfull : ∀ x y, x ≤ 8 → y ≤ 8 → s.get_value x y ≠ 0) :
    replace_notes_with_values s notes = (s, 0) :=
  replace_full_fold notes s hfull replace_scan_order replace_scan_order_bounds 0

theorem advance_run_full (s : Sudoku) (notes : NotesGrid)
    (hfull : ∀ x y, x ≤ 8 → y ≤ 8 → s.get_value x y ≠ 0) :
    advance_run s notes = (s, make_all_notes notes s) := by
  unfold advance_run
  have h1 : advance_with_notes (s.num_empty_squares + 1) s notes
      = some (s, make_all_notes notes s) := by
    rw [advance_unfold]
    rw [replace_full_grid (make_all_notes notes s) s hfull]
    rfl
  rw [h1]
  rfl

theorem is_dead_end_false_of_full (s : Sudoku) (notes : NotesGrid)
    (hfull : ∀ x y, x ≤ 8 → y ≤ 8 → s.get_value x y ≠ 0) :
    is_dead_end s notes = false := by
  unfold is_dead_end
  rw [List.any_eq_false]
  intro x hx
  rw [List.mem_range] at hx
  rw [Bool.not_eq_true, List.any_eq_false]
  intro y hy
  rw [List.mem_range] at hy
  rw [Bool.not_eq_true]
  have := hfull x y (by omega) (by omega)
  have hget : (s.get_value x y == 0) = false := by simpa using this
  rw [hget]
  simp

/-- C1 (behavior the code actually has, refuting the claim): a next call on an
already-solved well-formed grid always yields that grid again with an empty
change stack, no matter how often it is repeated: the iterator never reaches an
exhausted state, so find_all_solutions on a solved grid yields the grid over
and over instead of exactly once. -/
theorem solved_grid_next_yields_grid_forever
    (P : Sudoku) (hwf : P.WellFormed) (hsolved : P.is_solved = true) :
    ∀ fuel, next_fuel P [] (fuel + 1) = some (some P, []) ∧
      ∀ calls, collect_solutions P (fuel + 1) calls [] = List.replicate calls P := by
  have hlen : P.grid.length = NUM_SQUARES := hwf.1
  have hsplit := (Bool.and_eq_true _ _).mp (by
    unfold Sudoku.is_solved at hsolved
    exact hsolved)
  have hvalid : P.is_valid = true := hsplit.2
  have hhe : P.has_empty_squares = false := by
    have := hsplit.1
    revert this
    cases P.has_empty_squares <;> simp
  have hnum : P.num_empty_squares = 0 := by
    by_contra hne
    have := (has_empty_squares_iff P hlen).mpr hne
    rw [hhe] at this
    exact absurd this (by simp)
  have hfull : ∀ x y, x ≤ 8 → y ≤ 8 → P.get_value x y ≠ 0 :=
    (num_empty_eq_zero_iff P hlen).mp hnum
  intro fuel
  have hnext : next_fuel P [] (fuel + 1) = some (some P, []) := by
    have hstart : next_fuel P [] (fuel + 1)
        = solver_loop P (fuel + 1) P NotesGrid.new 0 [] := rfl
    rw [hstart, solver_loop_unfold]
    rw [advance_run_full P NotesGrid.new hfull]
    dsimp only
    rw [hvalid]
    rw [is_dead_end_false_of_full P (make_all_notes NotesGrid.new P) hfull]
    simp only [Bool.not_true, Bool.or_false, Bool.false_eq_true, if_false]
    rw [hnum]
    rfl
  refine ⟨hnext, ?_⟩
  intro calls
  induction calls with
  | zero => rfl
  | succ k ihc =>
    have hstep : collect_solutions P (fuel + 1) (k + 1) []
        = P :: collect_solutions P (fuel + 1) k [] := by
      simp only [collect_solutions]
      rw [hnext]
    rw [hstep, ihc]
    rfl


/-- C5: an already-invalid well-formed puzzle (some nonzero value duplicated in
a row, column or 3x3 cell) is a first-class domain outcome: every next call on
the fresh iterator terminates normally with no solution and an empty stack, so
find_solution returns nothing and find_all_solutions is the empty sequence,
and no precondition violation occurs along the way. -/
theorem invalid_puzzle_yields_no_solutions
    (P : Sudoku) (hwf : P.WellFormed) (hinvalid : P.is_valid = false) :
    ∀ fuel, next_fuel P [] (fuel + 1) = some (none, []) ∧
      find_solution_fuel P (fuel + 1) = some none ∧
      ∀ calls, collect_solutions P (fuel + 1) calls [] = [] := by
  intro fuel
  have hnext : next_fuel P [] (fuel + 1) = some (none, []) := by
    have hstart : next_fuel P [] (fuel + 1)
        = solver_loop P (fuel + 1) P NotesGrid.new 0 [] := rfl
    rw [hstart, solver_loop_unfold]
    rcases hAdv : advance_run P NotesGrid.new with ⟨g1, ns1⟩
    have hf := advance_run_facts P NotesGrid.new hwf.1
    rw [hAdv] at hf
    dsimp only at hf ⊢
    have hinv1 : g1.is_valid = false := is_valid_false_extends hf.2.1 hinvalid
    rw [hinv1]
    rfl
  refine ⟨hnext, ?_, ?_⟩
  · unfold find_solution_fuel
    rw [hnext]
    rfl
  · intro calls
    cases calls with
    | zero => rfl
    | succ k =>
      simp only [collect_solutions]
      rw [hnext]

/-! Popcount and mask-width facts for the candidate sets. -/

theorem popcount9_eq_card_testBit (flags : Nat) :
    popcount9 flags = ((List.range 9).filter (fun i => flags.testBit i)).length := by
  have hterm : ∀ i, (flags >>> i) &&& 1 = if flags.testBit i then 1 else 0 := by
    intro i
    rw [shift_and_one, Nat.testBit_to_div_mod]
    by_cases h : flags / 2 ^ i % 2 = 1
    · simp [h]
    · have h0 : flags / 2 ^ i % 2 = 0 := by omega
      simp [h0]
  have key : ∀ (L : List Nat) (n : Nat),
      L.foldl (fun num i => num + ((flags >>> i) &&& 1)) n
        = n + (L.filter (fun i => flags.testBit i)).length := by
    intro L
    induction L with
    | nil => intro n; simp
    | cons a t iht =>
      intro n
      rw [List.foldl_cons, iht, hterm a, List.filter_cons]
      by_cases h : flags.testBit a
      · simp [h]
        omega
      · simp [h]
  have hk := key (List.range 9) 0
  unfold popcount9
  omega

theorem foldl_preserves {α β : Type _} (P : α → Prop) (g : α → β → α)
    (hstep : ∀ m a, P m → P (g m a)) :
    ∀ (L : List β) (m : α), P m → P (L.foldl g m) := by
  intro L
  induction L with
  | nil => intro m hm; exact hm
  | cons a t ih => intro m hm; exact ih (g m a) (hstep m a hm)

theorem get_value_le_9 (s : Sudoku) (hv : ∀ v ∈ s.grid, v ≤ 9) (x y : Nat) :
    s.get_value x y ≤ 9 := by
  unfold Sudoku.get_value
  rw [List.getD_eq_getElem?_getD]
  cases h : s.grid[x + y * 9]? with
  | none => simp
  | some w =>
    have hw : w ∈ s.grid := List.getElem?_mem h
    simpa using hv w hw

theorem mask_step_lt (m v : Nat) (hm : m < 512) (hv : v ≤ 9) :
    (if (v == 0) = true then m else m ^^^ (1 <<< (v - 1))) < 512 := by
  by_cases h : (v == 0) = true
  · rw [if_pos h]; exact hm
  · rw [if_neg h]
    apply Nat.xor_lt_two_pow (n := 9) hm
    rw [Nat.shiftLeft_eq, one_mul]
    have hv1 : 1 ≤ v := by
      rcases Nat.eq_zero_or_pos v with h0 | h1
      · rw [h0] at h; simp at h
      · exact h1
    have : v - 1 < 9 := by omega
    calc 2 ^ (v - 1) < 2 ^ 9 := Nat.pow_lt_pow_right (by omega) (by omega)

theorem column_mask_lt (s : Sudoku) (hv : ∀ v ∈ s.grid, v ≤ 9) (x : Nat) :
    column_mask s x < 512 := by
  unfold column_mask
  apply foldl_preserves (fun m => m < 512)
  · intro m y hm
    exact mask_step_lt m (s.get_value x y) hm (get_value_le_9 s hv x y)
  · simp [SudokuNote.ALL_VALUES_POSSIBLE]

theorem row_mask_lt (s : Sudoku) (hv : ∀ v ∈ s.grid, v ≤ 9) (y : Nat) :
    row_mask s y < 512 := by
  unfold row_mask
  apply foldl_preserves (fun m => m < 512)
  · intro m x hm
    exact mask_step_lt m (s.get_value x y) hm (get_value_le_9 s hv x y)
  · simp [SudokuNote.ALL_VALUES_POSSIBLE]

theorem box_mask_lt (s : Sudoku) (hv : ∀ v ∈ s.grid, v ≤ 9) (cx cy : Nat) :
    box_mask s cx cy < 512 := by
  unfold box_mask
  apply foldl_preserves (fun m => m < 512)
  · intro m sy hm
    apply foldl_preserves (fun m => m < 512)
    · intro m sx hm2
      exact mask_step_lt m (s.get_value (cx * 3 + sx) (cy * 3 + sy)) hm2
        (get_value_le_9 s hv _ _)
    · exact hm
  · simp [SudokuNote.ALL_VALUES_POSSIBLE]

/-- C6: the deduction loop advance_with_notes terminates for every 81-square
grid and every candidate grid: whenever a pass writes at least one value the
number of empty squares strictly decreases (equivalently, the number of filled
squares strictly increases), the number of empty squares is bounded by the 81
squares of the grid, and therefore fuel num_empty_squares + 1 always reaches
the fixpoint. -/
theorem advance_with_notes_terminates (s : Sudoku) (notes : NotesGrid)
    (hlen : s.grid.length = NUM_SQUARES) :
    ((replace_notes_with_values s (make_all_notes notes s)).2 ≠ 0 →
      (replace_notes_with_values s (make_all_notes notes s)).1.num_empty_squares
        < s.num_empty_squares) ∧
    s.num_empty_squares ≤ NUM_SQUARES ∧
    (advance_with_notes (s.num_empty_squares + 1) s notes).isSome = true := by
  refine ⟨?_, ?_, advance_terminates (s.num_empty_squares + 1) s notes hlen (by omega)⟩
  · intro hnz
    have hf := replace_facts s (make_all_notes notes s) hlen
    have := hf.2.2.2.1
    omega
  · unfold Sudoku.num_empty_squares Sudoku.num_occurrences_of
    rw [← hlen]
    exact List.count_le_length 0 s.grid

theorem advance_with_notes_terminates_witness :
    Sudoku.new_empty.grid.length = NUM_SQUARES ∧
    (advance_with_notes (Sudoku.new_empty.num_empty_squares + 1)
      Sudoku.new_empty NotesGrid.new).isSome = true :=
  ⟨by decide, (advance_with_notes_terminates Sudoku.new_empty NotesGrid.new
    (by decide)).2.2⟩

/-- C8: the candidate-set count invariant. The cached num_values_possible
equals the popcount of the nine-bit mask notes_flags (and the mask really fits
in nine bits) in the fresh note, in every note of a reset grid, and in every
note produced by a completed make_all_notes pass on a well-formed grid; and
popcount9 is indeed the number of set bits among the nine value bits. -/
theorem note_count_matches_popcount :
    (SudokuNote.new_with_all_values_possible.num_values_possible
        = popcount9 SudokuNote.new_with_all_values_possible.notes_flags
      ∧ SudokuNote.new_with_all_values_possible.notes_flags < 512) ∧
    (∀ (notes : NotesGrid) (x y : Nat), x + y * 9 < notes.grid.length →
      (notes.reset.get_note x y).num_values_possible
          = popcount9 (notes.reset.get_note x y).notes_flags
        ∧ (notes.reset.get_note x y).notes_flags < 512) ∧
    (∀ (notes : NotesGrid) (s : Sudoku), (∀ v ∈ s.grid, v ≤ 9) →
      ∀ x y, x ≤ 8 → y ≤ 8 →
      ((make_all_notes notes s).get_note x y).num_values_possible
          = popcount9 ((make_all_notes notes s).get_note x y).notes_flags
        ∧ ((make_all_notes notes s).get_note x y).notes_flags < 512) ∧
    (∀ flags, popcount9 flags
        = ((List.range 9).filter (fun i => flags.testBit i)).length) := by
  refine ⟨by decide, ?_, ?_, popcount9_eq_card_testBit⟩
  · intro notes x y h
    rw [get_note_reset notes x y h]
    decide
  · intro notes s hv x y hx hy
    rw [get_note_make_all_notes notes s x y hx hy]
    refine ⟨Eq.refl _, ?_⟩
    calc (notes.get_note x y).notes_flags &&& column_mask s x &&& row_mask s y &&&
        box_mask s (x / 3) (y / 3)
      ≤ box_mask s (x / 3) (y / 3) := Nat.and_le_right
    _ < 512 := box_mask_lt s hv (x / 3) (y / 3)

theorem note_count_matches_popcount_witness :
    ((make_all_notes NotesGrid.new Sudoku.new_empty).get_note 0 0).num_values_possible
        = popcount9 ((make_all_notes NotesGrid.new Sudoku.new_empty).get_note 0 0).notes_flags
      ∧ ((make_all_notes NotesGrid.new Sudoku.new_empty).get_note 0 0).notes_flags < 512 :=
  note_count_matches_popcount.2.2.1 NotesGrid.new Sudoku.new_empty
    (by decide) 0 0 (by decide) (by decide)

/-! Reading the exclusion masks bit by bit. -/



theorem column_mask_eq (s : Sudoku) (x : Nat) :
    column_mask s x = exclusion_fold SudokuNote.ALL_VALUES_POSSIBLE (s.col_values x) := by
  unfold column_mask exclusion_fold Sudoku.col_values
  rw [List.foldl_map]

theorem row_mask_eq (s : Sudoku) (y : Nat) :
    row_mask s y = exclusion_fold SudokuNote.ALL_VALUES_POSSIBLE (s.row_values y) := by
  unfold row_mask exclusion_fold Sudoku.row_values
  rw [List.foldl_map]

theorem box_mask_eq (s : Sudoku) (cx cy : Nat) :
    box_mask s cx cy = exclusion_fold SudokuNote.ALL_VALUES_POSSIBLE (box_mask_values s cx cy) := by
  unfold box_mask exclusion_fold box_mask_values
  rw [show (List.range 3) = [0, 1, 2] from rfl]
  simp only [List.flatMap_cons, List.flatMap_nil, List.append_nil, List.foldl_append,
    List.foldl_map, List.foldl_cons, List.foldl_nil]

theorem exclusion_fold_testBit : ∀ (vals : List Nat) (m : Nat) (d : Nat),
    1 ≤ d → d ≤ 9 →
    (vals.count d = 0 → (exclusion_fold m vals).testBit (d - 1) = m.testBit (d - 1)) ∧
    (vals.count d = 1 → (exclusion_fold m vals).testBit (d - 1) = !m.testBit (d - 1)) := by
  intro vals
  induction vals with
  | nil =>
    intro m d h1 h9
    exact ⟨fun _ => rfl, fun hc => by simp at hc⟩
  | cons v rest ih =>
    intro m d h1 h9
    by_cases hv0 : v = 0
    · subst hv0
      have hstep : exclusion_fold m (0 :: rest) = exclusion_fold m rest := rfl
      have hcnt : (0 :: rest).count d = rest.count d := by
        rw [List.count_cons]
        have : ¬((0 : Nat) == d) = true := by
          simp
          omega
        simp [this]
      rw [hstep, hcnt]
      exact ih m d h1 h9
    · have hstep : exclusion_fold m (v :: rest)
          = exclusion_fold (m ^^^ (1 <<< (v - 1))) rest := by
        unfold exclusion_fold
        rw [List.foldl_cons]
        rw [if_neg (by simpa using hv0)]
      by_cases hvd : v = d
      · subst hvd
        have hflip : (m ^^^ (1 <<< (v - 1))).testBit (v - 1) = !m.testBit (v - 1) := by
          rw [Nat.testBit_xor, Nat.shiftLeft_eq, one_mul, Nat.testBit_two_pow]
          simp [Bool.xor_comm]
        have hcnt : (v :: rest).count v = rest.count v + 1 := by
          rw [List.count_cons]
          simp
        constructor
        · intro hc
          rw [hcnt] at hc
          omega
        · intro hc
          rw [hcnt] at hc
          have hrest : rest.count v = 0 := by omega
          rw [hstep]
          rw [(ih (m ^^^ (1 <<< (v - 1))) v h1 h9).1 hrest]
          exact hflip
      · have hkeep : (m ^^^ (1 <<< (v - 1))).testBit (d - 1) = m.testBit (d - 1) := by
          rw [Nat.testBit_xor, Nat.shiftLeft_eq, one_mul, Nat.testBit_two_pow]
          have hv1 : 1 ≤ v := by omega
          have : ¬(v - 1 = d - 1) := by omega
          simp [this]
        have hcnt : (v :: rest).count d = rest.count d := by
          rw [List.count_cons]
          have : ¬(v == d) = true := by simpa using hvd
          simp [this]
        rw [hstep, hcnt]
        constructor
        · intro hc
          rw [(ih (m ^^^ (1 <<< (v - 1))) d h1 h9).1 hc]
          exact hkeep
        · intro hc
          rw [(ih (m ^^^ (1 <<< (v - 1))) d h1 h9).2 hc]
          rw [hkeep]

theorem row_no_dup_of_valid (s : Sudoku) (hvalid : s.is_valid = true) (y : Nat)
    (hy : y ≤ 8) : nonzero_no_dup (s.row_values y) := by
  unfold Sudoku.is_valid at hvalid
  rcases Bool.and_eq_true _ _ |>.mp hvalid with ⟨hhv, _⟩
  rcases Bool.and_eq_true _ _ |>.mp hhv with ⟨hh, _⟩
  unfold Sudoku.fulfills_horizontal_condition at hh
  rw [List.all_eq_true] at hh
  have := hh y (List.mem_range.mpr (by omega))
  exact (line_check_iff (s.row_values y) 0).mp this |>.2

theorem col_no_dup_of_valid (s : Sudoku) (hvalid : s.is_valid = true) (x : Nat)
    (hx : x ≤ 8) : nonzero_no_dup (s.col_values x) := by
  unfold Sudoku.is_valid at hvalid
  rcases Bool.and_eq_true _ _ |>.mp hvalid with ⟨hhv, _⟩
  rcases Bool.and_eq_true _ _ |>.mp hhv with ⟨_, hv⟩
  unfold Sudoku.fulfills_vertical_condition at hv
  rw [List.all_eq_true] at hv
  have := hv x (List.mem_range.mpr (by omega))
  exact (line_check_iff (s.col_values x) 0).mp this |>.2

theorem box_no_dup_of_valid (s : Sudoku) (hvalid : s.is_valid = true)
    (cx cy : Nat) (hx : cx ≤ 2) (hy : cy ≤ 2) :
    nonzero_no_dup (s.box_values cx cy) := by
  unfold Sudoku.is_valid at hvalid
  rcases Bool.and_eq_true _ _ |>.mp hvalid with ⟨_, hbox⟩
  unfold Sudoku.fulfills_in_3x3_cell_condition at hbox
  rw [List.all_eq_true] at hbox
  have h1 := hbox cx (List.mem_range.mpr (by omega))
  rw [List.all_eq_true] at h1
  have h2 := h1 cy (List.mem_range.mpr (by omega))
  exact (line_check_iff (s.box_values cx cy) 0).mp h2 |>.2

theorem count_box_mask_values (s : Sudoku) (cx cy d : Nat) :
    (box_mask_values s cx cy).count d = (s.box_values cx cy).count d := by
  have h1 : box_mask_values s cx cy =
      [s.get_value (cx * 3 + 0) (cy * 3 + 0), s.get_value (cx * 3 + 1) (cy * 3 + 0),
       s.get_value (cx * 3 + 2) (cy * 3 + 0), s.get_value (cx * 3 + 0) (cy * 3 + 1),
       s.get_value (cx * 3 + 1) (cy * 3 + 1), s.get_value (cx * 3 + 2) (cy * 3 + 1),
       s.get_value (cx * 3 + 0) (cy * 3 + 2), s.get_value (cx * 3 + 1) (cy * 3 + 2),
       s.get_value (cx * 3 + 2) (cy * 3 + 2)] := rfl
  have h2 : s.box_values cx cy =
      [s.get_value (cx * 3 + 0) (cy * 3 + 0), s.get_value (cx * 3 + 0) (cy * 3 + 1),
       s.get_value (cx * 3 + 0) (cy * 3 + 2), s.get_value (cx * 3 + 1) (cy * 3 + 0),
       s.get_value (cx * 3 + 1) (cy * 3 + 1), s.get_value (cx * 3 + 1) (cy * 3 + 2),
       s.get_value (cx * 3 + 2) (cy * 3 + 0), s.get_value (cx * 3 + 2) (cy * 3 + 1),
       s.get_value (cx * 3 + 2) (cy * 3 + 2)] := rfl
  rw [h1, h2]
  simp only [List.count_cons, List.count_nil]
  omega

theorem is_value_possible_eq_testBit (note : SudokuNote) (d : Nat) :
    note.is_value_possible d = note.notes_flags.testBit (d - 1) := by
  unfold SudokuNote.is_value_possible
  rw [← line_read_eq_testBit]
  have : (note.notes_flags >>> (d - 1)) &&& 1 = note.notes_flags >>> (d - 1) % 2 := by
    rw [Nat.and_one_is_mod]
  cases hc : (note.notes_flags >>> (d - 1)) &&& 1 == 1 with
  | true =>
    have h1 : (note.notes_flags >>> (d - 1)) &&& 1 = 1 := by simpa using hc
    rw [h1]
    simp
  | false =>
    have h1 : (note.notes_flags >>> (d - 1)) &&& 1 ≠ 1 := by simpa using hc
    have h2 : (note.notes_flags >>> (d - 1)) &&& 1 = 0 := by
      have := Nat.and_one_is_mod (note.notes_flags >>> (d - 1))
      omega
    rw [h2]
    simp

theorem testBit_511 (i : Nat) (hi : i < 9) : (511 : Nat).testBit i = true := by
  rw [show (511 : Nat) = 2 ^ 9 - 1 from rfl, Nat.testBit_two_pow_sub_one]
  simpa using hi

theorem mask_testBit_of_no_dup (vals : List Nat) (d : Nat) (h1 : 1 ≤ d) (h9 : d ≤ 9)
    (hnd : vals.count d ≤ 1) :
    (exclusion_fold SudokuNote.ALL_VALUES_POSSIBLE vals).testBit (d - 1)
      = decide (d ∉ vals) := by
  have hfold := exclusion_fold_testBit vals SudokuNote.ALL_VALUES_POSSIBLE d h1 h9
  have h511 : (SudokuNote.ALL_VALUES_POSSIBLE : Nat).testBit (d - 1) = true := by
    unfold SudokuNote.ALL_VALUES_POSSIBLE
    exact testBit_511 (d - 1) (by omega)
  by_cases hmem : d ∈ vals
  · have hcnt : vals.count d = 1 := by
      have := List.count_pos_iff.mpr hmem
      omega
    rw [hfold.2 hcnt, h511]
    simp [hmem]
  · have hcnt : vals.count d = 0 := List.count_eq_zero.mpr hmem
    rw [hfold.1 hcnt, h511]
    simp [hmem]





/-- C4 (amended to valid grids): after make_all_notes on a fresh candidate
grid, for every well-formed valid grid G, every empty square (x,y) and every
value d in 1..=9, d is a candidate of (x,y) exactly when d occurs in none of
the filled squares of row y, column x, and the 3x3 cell containing (x,y). The
unamended claim over all grids fails because the xor mask construction cancels
duplicated values; see the counterexample. -/
theorem make_all_notes_candidate_iff
    (G : Sudoku) (hwf : G.WellFormed) (hvalid : G.is_valid = true)
    (x y : Nat) (hx : x ≤ 8) (hy : y ≤ 8)
    (hempty : G.get_value x y = 0) (d : Nat) (hd1 : 1 ≤ d) (hd9 : d ≤ 9) :
    ((make_all_notes NotesGrid.new G).get_note x y).is_value_possible d = true ↔
      (d ∉ G.row_values y ∧ d ∉ G.col_values x ∧
       d ∉ G.box_values (x / 3) (y / 3)) := by
  rw [is_value_possible_eq_testBit]
  rw [get_note_make_all_notes NotesGrid.new G x y hx hy]
  dsimp only
  rw [get_note_new x y (by omega)]
  have hd0 : d ≠ 0 := by omega
  have hrow : (G.row_values y).count d ≤ 1 := row_no_dup_of_valid G hvalid y hy d hd0
  have hcol : (G.col_values x).count d ≤ 1 := col_no_dup_of_valid G hvalid x hx d hd0
  have hbox : (G.box_values (x / 3) (y / 3)).count d ≤ 1 :=
    box_no_dup_of_valid G hvalid (x / 3) (y / 3) (by omega) (by omega) d hd0
  have hboxm : (box_mask_values G (x / 3) (y / 3)).count d ≤ 1 := by
    rw [count_box_mask_values]
    exact hbox
  rw [Nat.testBit_and, Nat.testBit_and, Nat.testBit_and]
  rw [column_mask_eq, row_mask_eq, box_mask_eq]
  rw [mask_testBit_of_no_dup _ d hd1 hd9 hcol,
    mask_testBit_of_no_dup _ d hd1 hd9 hrow,
    mask_testBit_of_no_dup _ d hd1 hd9 hboxm]
  have h511 : (SudokuNote.new_with_all_values_possible.notes_flags).testBit (d - 1) = true := by
    unfold SudokuNote.new_with_all_values_possible SudokuNote.ALL_VALUES_POSSIBLE
    exact testBit_511 (d - 1) (by omega)
  rw [h511]
  have hmemiff : d ∉ box_mask_values G (x / 3) (y / 3) ↔
      d ∉ G.box_values (x / 3) (y / 3) := by
    rw [← List.count_eq_zero, ← List.count_eq_zero, count_box_mask_values]
  constructor
  · intro h
    simp only [Bool.true_and, Bool.and_eq_true, decide_eq_true_eq] at h
    exact ⟨h.1.2, h.1.1, hmemiff.mp h.2⟩
  · intro ⟨h1, h2, h3⟩
    simp only [Bool.true_and, Bool.and_eq_true, decide_eq_true_eq]
    exact ⟨⟨h2, h1⟩, hmemiff.mpr h3⟩

/-- C4 counterexample to the claim as stated over every grid: dup_grid holds
the value 1 at (0,0) and (0,1), so 1 occurs among the filled squares of column
0 (and of the top-left 3x3 cell), square (0,2) is empty, yet after
make_all_notes on a fresh candidate grid the value 1 is still recorded as
possible for (0,2): the xor in the mask construction toggles the bit twice. -/
theorem make_all_notes_candidate_counterexample :
    dup_grid.WellFormed ∧ dup_grid.get_value 0 2 = 0 ∧
    (1 : Nat) ∈ dup_grid.col_values 0 ∧
    ((make_all_notes NotesGrid.new dup_grid).get_note 0 2).is_value_possible 1 = true := by
  refine ⟨by decide, by decide, by decide, by decide⟩

theorem make_all_notes_candidate_iff_witness :
    (((make_all_notes NotesGrid.new one_blank_grid).get_note 0 0).is_value_possible 1 = true ↔
      ((1 : Nat) ∉ one_blank_grid.row_values 0 ∧ (1 : Nat) ∉ one_blank_grid.col_values 0 ∧
       (1 : Nat) ∉ one_blank_grid.box_values 0 0)) :=
  make_all_notes_candidate_iff one_blank_grid (by decide) (by decide) 0 0
    (by decide) (by decide) (by decide) 1 (by decide) (by decide)

theorem solved_grid_next_yields_grid_forever_witness :
    next_fuel solved_grid [] 1 = some (some solved_grid, []) ∧
    collect_solutions solved_grid 1 3 [] = [solved_grid, solved_grid, solved_grid] := by
  have h := solved_grid_next_yields_grid_forever solved_grid (by decide) (by decide) 0
  refine ⟨h.1, ?_⟩
  rw [h.2 3]
  rfl

theorem invalid_puzzle_yields_no_solutions_witness :
    next_fuel invalid_pair_grid [] 1 = some (none, []) ∧
    find_solution_fuel invalid_pair_grid 1 = some none ∧
    collect_solutions invalid_pair_grid 1 2 [] = [] := by
  have h := invalid_puzzle_yields_no_solutions invalid_pair_grid (by decide) (by decide) 0
  exact ⟨h.1, h.2.1, h.2.2 2⟩

theorem solutions_are_solved_and_preserve_clues_witness :
    solved_grid.is_solved = true ∧
    solved_grid.get_value 1 0 = one_blank_grid.get_value 1 0 := by
  have h := solutions_are_solved_and_preserve_clues one_blank_grid [] 1 solved_grid []
    (by decide)
    ⟨fun c hc => absurd hc (List.not_mem_nil c), List.Pairwise.nil⟩
    (by decide)
  exact ⟨h.1, h.2 1 0 (by decide) (by decide) (by decide)⟩

theorem change_stack_invariant_witness :
    ([] : ChangeStack).length ≤ one_blank_grid.num_empty_squares := by
  have h := change_stack_invariant one_blank_grid [] 1 (some solved_grid) []
    (by decide)
    ⟨fun c hc => absurd hc (List.not_mem_nil c), List.Pairwise.nil⟩
    (by decide)
  exact h.2.1

/-- C9: precondition violations are fatal (modeled as none) and never clamp.
get_value panics exactly when a coordinate exceeds 8; set_value exactly when a
coordinate exceeds 8 or the value exceeds 9; new_from_array exactly when some
array element exceeds 9; and for in-range inputs no panic occurs and set_value
stores the supplied value exactly. -/
theorem precondition_violations_are_fatal :
    (∀ (s : Sudoku) (x y : Nat),
      s.get_value_checked x y = none ↔ (x > 8 ∨ y > 8)) ∧
    (∀ (s : Sudoku) (x y value : Nat),
      s.set_value_checked x y value = none ↔ (x > 8 ∨ y > 8 ∨ value > 9)) ∧
    (∀ array : List Nat,
      Sudoku.new_from_array array = none ↔ ∃ v ∈ array, v > 9) ∧
    (∀ (s : Sudoku) (x y : Nat), x ≤ 8 → y ≤ 8 →
      s.get_value_checked x y = some (s.get_value x y)) ∧
    (∀ (s : Sudoku) (x y value : Nat), x ≤ 8 → y ≤ 8 → value ≤ 9 →
      s.grid.length = NUM_SQUARES →
      s.set_value_checked x y value = some (s.set_value x y value) ∧
      (s.set_value x y value).get_value x y = value) := by
  refine ⟨?_, ?_, ?_, ?_, ?_⟩
  · intro s x y
    unfold Sudoku.get_value_checked validate_coordinates
    by_cases h : x > 8 || y > 8
    · rw [if_pos h]
      simpa using h
    · rw [if_neg h]
      simp at h ⊢
      omega
  · intro s x y value
    unfold Sudoku.set_value_checked validate_coordinates validate_value
    by_cases h : x > 8 || y > 8
    · rw [if_pos h]
      simp at h ⊢
      omega
    · rw [if_neg h]
      by_cases hv : value > 9
      · rw [if_pos hv]
        simp at h ⊢
        omega
      · rw [if_neg hv]
        simp at h ⊢
        omega
  · intro array
    unfold Sudoku.new_from_array
    by_cases h : array.all (fun value => !(value > 9)) = true
    · rw [if_pos h]
      rw [List.all_eq_true] at h
      constructor
      · intro hnone
        exact absurd hnone (by simp)
      · intro ⟨v, hv, hgt⟩
        have h2 := h v hv
        simp at h2
        omega
    · rw [if_neg h]
      rw [Bool.not_eq_true] at h
      rw [List.all_eq_false] at h
      rcases h with ⟨v, hv, hnot⟩
      refine ⟨fun _ => ⟨v, hv, ?_⟩, fun _ => rfl⟩
      simp at hnot
      omega
  · intro s x y hx hy
    unfold Sudoku.get_value_checked validate_coordinates
    rw [if_neg (by simp; omega)]
  · intro s x y value hx hy hv hlen
    refine ⟨?_, ?_⟩
    · unfold Sudoku.set_value_checked validate_coordinates validate_value
      rw [if_neg (by simp; omega), if_neg (by omega)]
    · rw [get_value_set_value s x y x y value hx hy hx hy hlen]
      rw [if_pos ⟨rfl, rfl⟩]

theorem precondition_violations_are_fatal_witness :
    (Sudoku.new_empty.get_value_checked 9 0 = none ↔ ((9 : Nat) > 8 ∨ (0 : Nat) > 8)) ∧
    (Sudoku.new_empty.set_value_checked 0 0 3 = some (Sudoku.new_empty.set_value 0 0 3) ∧
      (Sudoku.new_empty.set_value 0 0 3).get_value 0 0 = 3) :=
  ⟨precondition_violations_are_fatal.1 Sudoku.new_empty 9 0,
   precondition_violations_are_fatal.2.2.2.2 Sudoku.new_empty 0 0 3
     (by decide) (by decide) (by decide) (by decide)⟩

/-- C10: num_occurrences_of enforces the digit range: it panics (none) exactly
when the value exceeds 9; for a value at most 9 it returns the number of grid
squares holding exactly that value; and num_empty_squares always equals
num_occurrences_of applied to 0. -/
theorem num_occurrences_of_checked_spec :
    (∀ (s : Sudoku) (value : Nat),
      s.num_occurrences_of_checked value = none ↔ value > 9) ∧
    (∀ (s : Sudoku) (value : Nat), value ≤ 9 →
      s.num_occurrences_of_checked value = some (s.grid.count value)) ∧
    (∀ s : Sudoku, s.num_empty_squares = s.num_occurrences_of 0 ∧
      s.num_occurrences_of_checked 0 = some s.num_empty_squares) := by
  refine ⟨?_, ?_, ?_⟩
  · intro s value
    unfold Sudoku.num_occurrences_of_checked validate_value
    by_cases h : value > 9
    · rw [if_pos h]
      simpa using h
    · rw [if_neg h]
      simp
      omega
  · intro s value hv
    unfold Sudoku.num_occurrences_of_checked validate_value
    rw [if_neg (by omega)]
    rfl
  · intro s
    exact ⟨rfl, rfl⟩

theorem num_occurrences_of_checked_spec_witness :
    (solved_grid.num_occurrences_of_checked 10 = none ↔ (10 : Nat) > 9) ∧
    solved_grid.num_occurrences_of_checked 4 = some (solved_grid.grid.count 4) :=
  ⟨num_occurrences_of_checked_spec.1 solved_grid 10,
   num_occurrences_of_checked_spec.2.1 solved_grid 4 (by decide)⟩
